import Mathlib

/-!
# Plain vector field (`src/lib/field/plainvf.cc`)

A shallow embedding of the `plainvf` class: its constructor and its eight
overloaded operators, together with the parts of the array library and of the
neighbouring classes (`vfield`, `sfield`, `grid`, `mpidata`) that the class
touches.

* `real` is the solver's scalar type.  Its typedef is not part of the file, so
  it is a type parameter, and the theorems about the operators assume no
  algebraic law of it.  The solver instantiates it with a binary
  floating-point type; `Fp` is such a type (exact result, then rounding to
  nearest), used wherever a statement depends on what the arithmetic does.
* C++ references are addresses into a `Store`; an operator is a function from
  the store before the call to the store after it, and the three statements of
  every operator body are executed one after the other on the running store.
* A read past the end of an operand's storage is the fault `Fault.outOfBounds`
  (undefined behaviour in C++); no operator has any other way to fail.
-/

set_option exponentiation.threshold 4096

set_option maxRecDepth 100000

namespace Loiret

set_option linter.dupNamespace false

/-- Integer triple, one entry per array axis: `blitz::TinyVector<int, 3>`. -/
structure TinyVector where
  x : Int
  y : Int
  z : Int
deriving DecidableEq, Repr

/-- The sum `v + k` of a triple and an integer, taken entry by entry
(`refV.Vx.cuBound + 1` in the constructor). -/
def TinyVector.addScalar (v : TinyVector) (k : Int) : TinyVector :=
  ⟨v.x + k, v.y + k, v.z + k⟩

/-- Number of cells of an array with the given extents. -/
def TinyVector.product (v : TinyVector) : Nat :=
  v.x.toNat * v.y.toNat * v.z.toNat

/-- The only way an elementwise statement can go wrong: the loop over the
destination reads a cell the operand does not have. -/
inductive Fault where
  | outOfBounds
deriving DecidableEq, Repr

/-- Three-dimensional array `blitz::Array<real, 3>` with contiguous row-major
storage: the extent and the lower index bound along each axis, and the cells
in storage order.  The storage always holds one cell per index. -/
structure BArray (real : Type) where
  extent : TinyVector
  lbound : TinyVector
  data : List real
  size_eq : data.length = extent.product

namespace BArray

variable {real : Type}

/-- A default-constructed array: no cells, base index zero. -/
def empty : BArray real :=
  ⟨⟨0, 0, 0⟩, ⟨0, 0, 0⟩, [], rfl⟩

/-- Number of cells, `numElements()`. -/
def numElements (A : BArray real) : Nat :=
  A.extent.product

/-- Method `resize(extent)`: the array gets the new extents and a freshly
allocated block whose contents are whatever the allocator hands out
(`fresh`); the base index is kept. -/
def resize (A : BArray real) (extent : TinyVector) (fresh : Nat → real) : BArray real :=
  ⟨extent, A.lbound, (List.range extent.product).map fresh, by simp⟩

/-- Method `reindexSelf(newBase)`: same cells, new lower index bounds. -/
def reindexSelf (A : BArray real) (newBase : TinyVector) : BArray real :=
  ⟨A.extent, newBase, A.data, A.size_eq⟩

/-- An index triple is valid when it lies between the lower bound and the
lower bound plus the extent, along every axis. -/
def inRange (A : BArray real) (i : TinyVector) : Prop :=
  (A.lbound.x ≤ i.x ∧ i.x < A.lbound.x + A.extent.x) ∧
  (A.lbound.y ≤ i.y ∧ i.y < A.lbound.y + A.extent.y) ∧
  (A.lbound.z ≤ i.z ∧ i.z < A.lbound.z + A.extent.z)

instance (A : BArray real) (i : TinyVector) : Decidable (A.inRange i) := by
  unfold inRange; infer_instance

/-- Position of the cell with index `i` in the row-major storage. -/
def offset (A : BArray real) (i : TinyVector) : Nat :=
  ((i.x - A.lbound.x).toNat * A.extent.y.toNat + (i.y - A.lbound.y).toNat) * A.extent.z.toNat
    + (i.z - A.lbound.z).toNat

/-- The cell `A(i.x, i.y, i.z)`, when the index is valid. -/
def get? (A : BArray real) (i : TinyVector) : Option real :=
  if A.inRange i then A.data[A.offset i]? else none

/-- Elementwise update of `dst` from an array operand, as the array library
evaluates it on contiguous arrays: the loop runs over all the cells of `dst`
in storage order and combines cell number `n` of `dst` with cell number `n` of
`src`.  Neither the extents nor the bounds of `src` are looked at (the library
asserts conformable shapes in its debug build only, and `plainvf.cc` never
compares shapes itself); the loop faults when `src` has fewer cells than
`dst`. -/
def evaluate (upd : real → real → real) (dst src : BArray real) : Except Fault (BArray real) :=
  if h : dst.data.length ≤ src.data.length then
    .ok ⟨dst.extent, dst.lbound, List.zipWith upd dst.data src.data, by
      rw [List.length_zipWith, Nat.min_eq_left h, dst.size_eq]⟩
  else
    .error Fault.outOfBounds

/-- Elementwise update of `dst` from a scalar operand, over all its cells. -/
def evaluateScalar (upd : real → real → real) (dst : BArray real) (a : real) : BArray real :=
  ⟨dst.extent, dst.lbound, dst.data.map (fun v => upd v a), by
    rw [List.length_map, dst.size_eq]⟩

/-- Array statement `dst += src`. -/
def addAssign [Add real] (dst src : BArray real) : Except Fault (BArray real) :=
  evaluate (fun v w => v + w) dst src

/-- Array statement `dst -= src`. -/
def subAssign [Sub real] (dst src : BArray real) : Except Fault (BArray real) :=
  evaluate (fun v w => v - w) dst src

/-- Array statement `dst = src` (a copy of the cells, not of the handle). -/
def assign (dst src : BArray real) : Except Fault (BArray real) :=
  evaluate (fun _ w => w) dst src

/-- Array statement `dst *= a` for a scalar `a`. -/
def mulAssignScalar [Mul real] (dst : BArray real) (a : real) : BArray real :=
  evaluateScalar (fun v w => v * w) dst a

/-- Array statement `dst = a` for a scalar `a`. -/
def assignScalar (dst : BArray real) (a : real) : BArray real :=
  evaluateScalar (fun _ w => w) dst a

end BArray

/-- The three components of a vector field. -/
inductive Component where
  | Vx
  | Vy
  | Vz
deriving DecidableEq, Repr, Fintype

/-- Modelled from the spec: the class `parallel` behind `gridData.rankData` is
not in the source; it is the rank/topology handle of the subdomain (its own
rank and the ranks of its neighbours). -/
structure parallel where
  rank : Int
  nearRanks : List Int
deriving DecidableEq, Repr

/-- Modelled from the spec: the class `grid` is not in the source; the
constructor reads its members `rankData` and `padWidths` (ghost-layer depth
per axis). -/
structure grid where
  rankData : parallel
  padWidths : TinyVector
deriving DecidableEq, Repr

/-- Modelled from the spec: the class `sfield` of one staggered component is
not in the source; the members the source reads are the raw array `F`, the
full allocated shape `fSize`, the lower bound `flBound` of the full array, the
upper bound `cuBound` of the core region and the two stagger flags. -/
structure sfield (real : Type) where
  F : BArray real
  fSize : TinyVector
  flBound : TinyVector
  cuBound : TinyVector
  xStag : Bool
  yStag : Bool

/-- Modelled from the spec: the class `vfield` is not in the source; it owns
one `sfield` per axis. -/
structure vfield (real : Type) where
  Vx : sfield real
  Vy : sfield real
  Vz : sfield real

/-- The arguments of one `createSubarrays` call. -/
structure SubarrayArgs where
  globSize : TinyVector
  coreSize : TinyVector
  padWidth : TinyVector
  xStag : Bool
  yStag : Bool
deriving DecidableEq, Repr

/-- Modelled from the spec: the class `mpidata` (halo exchange handle) is not
in the source.  The handle remembers the member array it was constructed on,
the rank data it was given, and the arguments of the `createSubarrays` call
made on it, if any. -/
structure mpidata where
  boundTo : Component
  rankData : parallel
  subarrays : Option SubarrayArgs
deriving DecidableEq, Repr

/-- Expression `new mpidata(array, rankData)`. -/
def mpidata.new (boundTo : Component) (rankData : parallel) : mpidata :=
  ⟨boundTo, rankData, none⟩

/-- Method `createSubarrays(globSize, coreSize, padWidth, xStag, yStag)`. -/
def mpidata.createSubarrays (m : mpidata) (globSize coreSize padWidth : TinyVector)
    (xStag yStag : Bool) : mpidata :=
  ⟨m.boundTo, m.rankData, some ⟨globSize, coreSize, padWidth, xStag, yStag⟩⟩

/-- The members of a `plainvf` object: the reference to the grid, the three
arrays and the three owned handles. -/
structure plainvf (real : Type) where
  gridData : grid
  Vx : BArray real
  Vy : BArray real
  Vz : BArray real
  mpiVxData : mpidata
  mpiVyData : mpidata
  mpiVzData : mpidata

/-- The array of a component of a plain field. -/
def plainvf.comp {real : Type} (P : plainvf real) : Component → BArray real
  | .Vx => P.Vx
  | .Vy => P.Vy
  | .Vz => P.Vz

/-- The handle of a component of a plain field. -/
def plainvf.mpiData {real : Type} (P : plainvf real) : Component → mpidata
  | .Vx => P.mpiVxData
  | .Vy => P.mpiVyData
  | .Vz => P.mpiVzData

/-- The scalar field of a component of a staggered field. -/
def vfield.comp {real : Type} (R : vfield real) : Component → sfield real
  | .Vx => R.Vx
  | .Vy => R.Vy
  | .Vz => R.Vz

/-- Constructor `plainvf::plainvf(gridData, refV)`.  The three member arrays
start out default-constructed; `fresh c` is the content of the block that
`resize` allocates for component `c`. -/
def plainvf.plainvf {real : Type} (gridData : grid) (refV : vfield real)
    (fresh : Component → Nat → real) : plainvf real :=
  let Vx := BArray.reindexSelf (BArray.resize BArray.empty refV.Vx.fSize (fresh .Vx)) refV.Vx.flBound
  let mpiVxData := mpidata.createSubarrays (mpidata.new .Vx gridData.rankData)
    refV.Vx.fSize (refV.Vx.cuBound.addScalar 1) gridData.padWidths refV.Vx.xStag refV.Vx.yStag
  let Vy := BArray.reindexSelf (BArray.resize BArray.empty refV.Vy.fSize (fresh .Vy)) refV.Vy.flBound
  let mpiVyData := mpidata.createSubarrays (mpidata.new .Vy gridData.rankData)
    refV.Vy.fSize (refV.Vy.cuBound.addScalar 1) gridData.padWidths refV.Vy.xStag refV.Vy.yStag
  let Vz := BArray.reindexSelf (BArray.resize BArray.empty refV.Vz.fSize (fresh .Vz)) refV.Vz.flBound
  let mpiVzData := mpidata.createSubarrays (mpidata.new .Vz gridData.rankData)
    refV.Vz.fSize (refV.Vz.cuBound.addScalar 1) gridData.padWidths refV.Vz.xStag refV.Vz.yStag
  ⟨gridData, Vx, Vy, Vz, mpiVxData, mpiVyData, mpiVzData⟩

/-- Memory of the process as far as the class is concerned: the plain fields
and the staggered fields, each by address.  A C++ reference is an address. -/
structure Store (real : Type) where
  pvf : Nat → plainvf real
  vf : Nat → vfield real

namespace Store

variable {real : Type}

/-- Write of the member array `Vx` of the plain field at address `p`. -/
def setVx (s : Store real) (p : Nat) (A : BArray real) : Store real :=
  ⟨Function.update s.pvf p { s.pvf p with Vx := A }, s.vf⟩

/-- Write of the member array `Vy` of the plain field at address `p`. -/
def setVy (s : Store real) (p : Nat) (A : BArray real) : Store real :=
  ⟨Function.update s.pvf p { s.pvf p with Vy := A }, s.vf⟩

/-- Write of the member array `Vz` of the plain field at address `p`. -/
def setVz (s : Store real) (p : Nat) (A : BArray real) : Store real :=
  ⟨Function.update s.pvf p { s.pvf p with Vz := A }, s.vf⟩

end Store

namespace plainvf

variable {real : Type}

/-- Operator `plainvf::operator += (plainvf &a)`: the three statements
`Vx += a.Vx; Vy += a.Vy; Vz += a.Vz;` and `return *this`. -/
def opAddAssign_plainvf [Add real] (self a : Nat) (s : Store real) :
    Except Fault (Nat × Store real) := do
  let vx ← BArray.addAssign (s.pvf self).Vx (s.pvf a).Vx
  let s1 := s.setVx self vx
  let vy ← BArray.addAssign (s1.pvf self).Vy (s1.pvf a).Vy
  let s2 := s1.setVy self vy
  let vz ← BArray.addAssign (s2.pvf self).Vz (s2.pvf a).Vz
  let s3 := s2.setVz self vz
  return (self, s3)

/-- Operator `plainvf::operator -= (plainvf &a)`: the three statements
`Vx -= a.Vx; Vy -= a.Vy; Vz -= a.Vz;` and `return *this`. -/
def opSubAssign_plainvf [Sub real] (self a : Nat) (s : Store real) :
    Except Fault (Nat × Store real) := do
  let vx ← BArray.subAssign (s.pvf self).Vx (s.pvf a).Vx
  let s1 := s.setVx self vx
  let vy ← BArray.subAssign (s1.pvf self).Vy (s1.pvf a).Vy
  let s2 := s1.setVy self vy
  let vz ← BArray.subAssign (s2.pvf self).Vz (s2.pvf a).Vz
  let s3 := s2.setVz self vz
  return (self, s3)

/-- Operator `plainvf::operator += (vfield &a)`: the three statements
`Vx += a.Vx.F; Vy += a.Vy.F; Vz += a.Vz.F;` and `return *this`. -/
def opAddAssign_vfield [Add real] (self a : Nat) (s : Store real) :
    Except Fault (Nat × Store real) := do
  let vx ← BArray.addAssign (s.pvf self).Vx (s.vf a).Vx.F
  let s1 := s.setVx self vx
  let vy ← BArray.addAssign (s1.pvf self).Vy (s1.vf a).Vy.F
  let s2 := s1.setVy self vy
  let vz ← BArray.addAssign (s2.pvf self).Vz (s2.vf a).Vz.F
  let s3 := s2.setVz self vz
  return (self, s3)

/-- Operator `plainvf::operator -= (vfield &a)`: the three statements
`Vx -= a.Vx.F; Vy -= a.Vy.F; Vz -= a.Vz.F;` and `return *this`. -/
def opSubAssign_vfield [Sub real] (self a : Nat) (s : Store real) :
    Except Fault (Nat × Store real) := do
  let vx ← BArray.subAssign (s.pvf self).Vx (s.vf a).Vx.F
  let s1 := s.setVx self vx
  let vy ← BArray.subAssign (s1.pvf self).Vy (s1.vf a).Vy.F
  let s2 := s1.setVy self vy
  let vz ← BArray.subAssign (s2.pvf self).Vz (s2.vf a).Vz.F
  let s3 := s2.setVz self vz
  return (self, s3)

/-- Operator `plainvf::operator *= (real a)`: the three statements
`Vx *= a; Vy *= a; Vz *= a;` and `return *this`. -/
def opMulAssign_real [Mul real] (self : Nat) (a : real) (s : Store real) : Nat × Store real :=
  let s1 := s.setVx self (BArray.mulAssignScalar (s.pvf self).Vx a)
  let s2 := s1.setVy self (BArray.mulAssignScalar (s1.pvf self).Vy a)
  let s3 := s2.setVz self (BArray.mulAssignScalar (s2.pvf self).Vz a)
  (self, s3)

/-- Operator `void plainvf::operator = (plainvf &a)`: the three statements
`Vx = a.Vx; Vy = a.Vy; Vz = a.Vz;`, nothing returned. -/
def opAssign_plainvf (self a : Nat) (s : Store real) : Except Fault (Unit × Store real) := do
  let vx ← BArray.assign (s.pvf self).Vx (s.pvf a).Vx
  let s1 := s.setVx self vx
  let vy ← BArray.assign (s1.pvf self).Vy (s1.pvf a).Vy
  let s2 := s1.setVy self vy
  let vz ← BArray.assign (s2.pvf self).Vz (s2.pvf a).Vz
  let s3 := s2.setVz self vz
  return ((), s3)

/-- Operator `void plainvf::operator = (vfield &a)`: the three statements
`Vx = a.Vx.F; Vy = a.Vy.F; Vz = a.Vz.F;`, nothing returned. -/
def opAssign_vfield (self a : Nat) (s : Store real) : Except Fault (Unit × Store real) := do
  let vx ← BArray.assign (s.pvf self).Vx (s.vf a).Vx.F
  let s1 := s.setVx self vx
  let vy ← BArray.assign (s1.pvf self).Vy (s1.vf a).Vy.F
  let s2 := s1.setVy self vy
  let vz ← BArray.assign (s2.pvf self).Vz (s2.vf a).Vz.F
  let s3 := s2.setVz self vz
  return ((), s3)

/-- Operator `void plainvf::operator = (real a)`: the three statements
`Vx = a; Vy = a; Vz = a;`, nothing returned. -/
def opAssign_real (self : Nat) (a : real) (s : Store real) : Unit × Store real :=
  let s1 := s.setVx self (BArray.assignScalar (s.pvf self).Vx a)
  let s2 := s1.setVy self (BArray.assignScalar (s1.pvf self).Vy a)
  let s3 := s2.setVz self (BArray.assignScalar (s2.pvf self).Vz a)
  ((), s3)

end plainvf

/-- Two arrays have the same layout: the same extent and the same lower index
bound along every axis. -/
def BArray.sameLayout {real : Type} (A B : BArray real) : Prop :=
  A.extent = B.extent ∧ A.lbound = B.lbound

instance {real : Type} (A B : BArray real) : Decidable (A.sameLayout B) := by
  unfold BArray.sameLayout; infer_instance

/-- The layout of a plain field is the one of the reference `R`: every
component has the reference component's full shape and lower bound. -/
def plainvf.builtFrom {real : Type} (P : Loiret.plainvf real) (R : vfield real) : Prop :=
  ∀ c : Component, (P.comp c).extent = (R.comp c).fSize ∧ (P.comp c).lbound = (R.comp c).flBound

/-- Snapshot form of a field-operand operator, used to reason about the
sequential bodies: the three operand arrays `src` are given up front, the
three updates are computed from the store before the call, and the new
arrays are written in one step. -/
def plainvf.fieldOp {real : Type} (upd : real → real → real) (self : Nat)
    (src : Component → BArray real) (s : Store real) : Except Fault (Store real) := do
  let vx ← BArray.evaluate upd (s.pvf self).Vx (src .Vx)
  let vy ← BArray.evaluate upd (s.pvf self).Vy (src .Vy)
  let vz ← BArray.evaluate upd (s.pvf self).Vz (src .Vz)
  return ⟨Function.update s.pvf self { s.pvf self with Vx := vx, Vy := vy, Vz := vz }, s.vf⟩

/-- Snapshot form of a scalar-operand operator: the three new arrays are
computed from the store before the call and written in one step. -/
def plainvf.scalarOp {real : Type} (upd : real → real → real) (self : Nat) (a : real)
    (s : Store real) : Store real :=
  ⟨Function.update s.pvf self
    { s.pvf self with
      Vx := BArray.evaluateScalar upd (s.pvf self).Vx a
      Vy := BArray.evaluateScalar upd (s.pvf self).Vy a
      Vz := BArray.evaluateScalar upd (s.pvf self).Vz a }, s.vf⟩

instance {real : Type} [DecidableEq real] (P : Loiret.plainvf real) (R : vfield real) :
    Decidable (P.builtFrom R) := by
  unfold plainvf.builtFrom; infer_instance

/-- Effect of a completed field-operand operator on the store, `src` being
the three operand arrays: nothing but the plain field at `self` changes, that
field keeps its grid reference, its handles and the layout of its arrays, and
every array holds, cell by cell in storage order, the update of its old cell
with the operand's cell. -/
def Store.fieldUpdated {real : Type} (upd : real → real → real) (self : Nat)
    (src : Component → BArray real) (s t : Store real) : Prop :=
  t.vf = s.vf ∧ (∀ q, q ≠ self → t.pvf q = s.pvf q) ∧
  (t.pvf self).gridData = (s.pvf self).gridData ∧
  (∀ c, (t.pvf self).mpiData c = (s.pvf self).mpiData c) ∧
  ∀ c, ((t.pvf self).comp c).extent = ((s.pvf self).comp c).extent ∧
    ((t.pvf self).comp c).lbound = ((s.pvf self).comp c).lbound ∧
    ((t.pvf self).comp c).data = List.zipWith upd ((s.pvf self).comp c).data (src c).data

/-- The six operators of the class that take a field operand. -/
inductive FieldOperator where
  | addPlain
  | subPlain
  | assignPlain
  | addStaggered
  | subStaggered
  | assignStaggered
deriving DecidableEq, Repr, Fintype

/-- The cell update an operator performs: `+=`, `-=` or `=`. -/
def FieldOperator.upd {real : Type} [Add real] [Sub real] : FieldOperator → real → real → real
  | .addPlain => fun v w => v + w
  | .subPlain => fun v w => v - w
  | .assignPlain => fun _ w => w
  | .addStaggered => fun v w => v + w
  | .subStaggered => fun v w => v - w
  | .assignStaggered => fun _ w => w

/-- The operand array an operator reads for component `c`, the operand being
at address `a`: `a.c` for a plain operand, `a.c.F` for a staggered one. -/
def FieldOperator.operand {real : Type} (op : FieldOperator) (s : Store real) (a : Nat)
    (c : Component) : BArray real :=
  match op with
  | .addPlain => (s.pvf a).comp c
  | .subPlain => (s.pvf a).comp c
  | .assignPlain => (s.pvf a).comp c
  | .addStaggered => ((s.vf a).comp c).F
  | .subStaggered => ((s.vf a).comp c).F
  | .assignStaggered => ((s.vf a).comp c).F

/-- Call of one of the six operators, keeping the store it leaves and dropping
the returned reference. -/
def FieldOperator.run {real : Type} [Add real] [Sub real] (op : FieldOperator) (self a : Nat)
    (s : Store real) : Except Fault (Store real) :=
  match op with
  | .addPlain => (plainvf.opAddAssign_plainvf self a s).map Prod.snd
  | .subPlain => (plainvf.opSubAssign_plainvf self a s).map Prod.snd
  | .assignPlain => (plainvf.opAssign_plainvf self a s).map Prod.snd
  | .addStaggered => (plainvf.opAddAssign_vfield self a s).map Prod.snd
  | .subStaggered => (plainvf.opSubAssign_vfield self a s).map Prod.snd
  | .assignStaggered => (plainvf.opAssign_vfield self a s).map Prod.snd

/-! ## Binary floating-point scalars -/

/-- Binary floating-point format: the precision in bits and the largest
exponent (53 and 1023 for `double`, 24 and 127 for `float`). -/
structure FloatFormat where
  prec : Nat
  emax : Int
deriving DecidableEq, Repr

/-- The format of a C++ `double`. -/
def binary64 : FloatFormat :=
  ⟨53, 1023⟩

/-- Floating-point datum of a binary format of IEEE 754, the kind of type the
solver's `real` is: a finite number, given by its exact rational value (the
two zeros are one value), an infinity with its sign, or a NaN (all NaNs are
one value).  The finite data of the format are those picked out by
`Fp.inFormat`. -/
inductive Fp (fmt : FloatFormat) where
  | finite (q : ℚ)
  | inf (neg : Bool)
  | nan
deriving DecidableEq, Repr

/-- Number of binary digits of `n` added to `acc`, by halving at most `fuel`
times. -/
def bitLenAux : Nat → Nat → Nat → Nat
  | 0, _, acc => acc
  | fuel + 1, n, acc => if n = 0 then acc else bitLenAux fuel (n / 2) (acc + 1)

/-- Number of binary digits of `n`: 0 for 0, and `k + 1` when
`2 ^ k ≤ n < 2 ^ (k + 1)`. -/
def bitLen (n : Nat) : Nat :=
  bitLenAux n n 0

/-- Floor of the binary logarithm of the positive rational `a / b`. -/
def floorLog2 (a b : Nat) : Int :=
  let k : Int := (bitLen a : Int) - (bitLen b : Int)
  if b * 2 ^ k.toNat ≤ a * 2 ^ (-k).toNat then k else k - 1

/-- Integer nearest to `n / d`, the even one of the two when `n / d` lies
half way between them. -/
def roundHalfEven (n d : Nat) : Nat :=
  if 2 * (n % d) < d then n / d
  else if d < 2 * (n % d) then n / d + 1
  else if (n / d) % 2 = 0 then n / d else n / d + 1

namespace Fp

variable {fmt : FloatFormat}

/-- Rounding of an exact rational result to the format, to nearest and ties to
even: `e` is the exponent of the last place of the result (not below that of
the subnormal numbers), `n` the rounded significand as a multiple of `2 ^ e`;
a result of magnitude `2 ^ (emax + 1)` or more is an infinity. -/
def round (fmt : FloatFormat) (q : ℚ) : Fp fmt :=
  if q.num = 0 then .finite 0
  else
    let e : Int := max (floorLog2 q.num.natAbs q.den - ((fmt.prec : Int) - 1))
      (2 - fmt.emax - (fmt.prec : Int))
    let n : Nat := roundHalfEven (q.num.natAbs * 2 ^ (-e).toNat) (q.den * 2 ^ e.toNat)
    if 2 ^ (fmt.emax + 1 - e).toNat ≤ n then .inf (decide (q.num < 0))
    else if q.num < 0 then .finite (mkRat (-((n * 2 ^ e.toNat : Nat) : Int)) (2 ^ (-e).toNat))
    else .finite (mkRat ((n * 2 ^ e.toNat : Nat) : Int) (2 ^ (-e).toNat))

/-- Floating-point addition: the exact sum, rounded. -/
def add : Fp fmt → Fp fmt → Fp fmt
  | .finite p, .finite q => round fmt (mkRat (p.num * q.den + q.num * p.den) (p.den * q.den))
  | .finite _, .inf t => .inf t
  | .inf s, .finite _ => .inf s
  | .inf s, .inf t => if s = t then .inf s else .nan
  | .nan, _ => .nan
  | _, .nan => .nan

/-- Floating-point subtraction: the exact difference, rounded. -/
def sub : Fp fmt → Fp fmt → Fp fmt
  | .finite p, .finite q => round fmt (mkRat (p.num * q.den - q.num * p.den) (p.den * q.den))
  | .finite _, .inf t => .inf (!t)
  | .inf s, .finite _ => .inf s
  | .inf s, .inf t => if s = t then .nan else .inf s
  | .nan, _ => .nan
  | _, .nan => .nan

/-- Floating-point multiplication: the exact product, rounded. -/
def mul : Fp fmt → Fp fmt → Fp fmt
  | .finite p, .finite q => round fmt (mkRat (p.num * q.num) (p.den * q.den))
  | .finite p, .inf t => if p.num = 0 then .nan else .inf (xor (decide (p.num < 0)) t)
  | .inf s, .finite q => if q.num = 0 then .nan else .inf (xor s (decide (q.num < 0)))
  | .inf s, .inf t => .inf (xor s t)
  | .nan, _ => .nan
  | _, .nan => .nan

instance : Add (Fp fmt) := ⟨add⟩

instance : Sub (Fp fmt) := ⟨sub⟩

instance : Mul (Fp fmt) := ⟨mul⟩

/-- A datum is finite when it is neither an infinity nor a NaN. -/
def isFinite : Fp fmt → Bool
  | .finite _ => true
  | _ => false

/-- The number `m * 2 ^ k` as a datum, for a natural `m`. -/
def ofScaled (m : Nat) (k : Int) : Fp fmt :=
  .finite (mkRat ((m * 2 ^ k.toNat : Nat) : Int) (2 ^ (-k).toNat))

/-- A datum belongs to the format when it is an infinity, a NaN, or a finite
number that rounding to the format leaves as it is. -/
def inFormat : Fp fmt → Prop
  | .finite q => round fmt q = .finite q
  | _ => True

instance (x : Fp fmt) : Decidable x.inFormat := by
  cases x <;> unfold inFormat <;> infer_instance

end Fp

/-! ## Concrete fields used to evaluate the definitions -/

/-- Reference field of the scenario of a 4×4×4 block with two ghost layers
along the staggered axis of each component: `Vx` has the full shape (8,4,4),
`Vy` (4,8,4) and `Vz` (4,4,8). -/
def scenarioRef : vfield ℚ :=
  { Vx := ⟨BArray.empty, ⟨8, 4, 4⟩, ⟨-2, 0, 0⟩, ⟨3, 3, 3⟩, true, false⟩
    Vy := ⟨BArray.empty, ⟨4, 8, 4⟩, ⟨0, -2, 0⟩, ⟨3, 3, 3⟩, false, true⟩
    Vz := ⟨BArray.empty, ⟨4, 4, 8⟩, ⟨0, 0, -2⟩, ⟨3, 3, 3⟩, false, false⟩ }

/-- Domain descriptor of the scenario: rank 0 of a single process, padding
width 2 along every axis. -/
def scenarioGrid : grid :=
  ⟨⟨0, []⟩, ⟨2, 2, 2⟩⟩

/-- Store of the scenario: every plain field is the one constructed from
`scenarioRef`, its fresh cells holding 0. -/
def scenarioStore : Store ℚ :=
  ⟨fun _ => plainvf.plainvf scenarioGrid scenarioRef (fun _ _ => 0), fun _ => scenarioRef⟩

/-- Array over the integers with the given extents and lower bounds, cell
number `n` of the storage holding `cells n`. -/
def demoArray (extent lbound : TinyVector) (cells : Nat → ℤ) : BArray ℤ :=
  BArray.reindexSelf (BArray.resize BArray.empty extent cells) lbound

/-- Small reference field: `Vx` of shape (2,1,1), `Vy` of shape (1,2,1), `Vz`
of shape (1,1,2), one ghost layer below the core along the long axis. -/
def pairRef : vfield ℤ :=
  { Vx := ⟨demoArray ⟨2, 1, 1⟩ ⟨-1, 0, 0⟩ (fun n => 7 + n), ⟨2, 1, 1⟩, ⟨-1, 0, 0⟩, ⟨0, 0, 0⟩, true, false⟩
    Vy := ⟨demoArray ⟨1, 2, 1⟩ ⟨0, -1, 0⟩ (fun n => 9 + n), ⟨1, 2, 1⟩, ⟨0, -1, 0⟩, ⟨0, 0, 0⟩, false, true⟩
    Vz := ⟨demoArray ⟨1, 1, 2⟩ ⟨0, 0, -1⟩ (fun n => 11 + n), ⟨1, 1, 2⟩, ⟨0, 0, -1⟩, ⟨0, 0, 0⟩, false, false⟩ }

/-- Reference field that agrees with `pairRef` on `Vx` and `Vz` and has one
more cell along the second axis of `Vy`: shape (1,3,1) instead of (1,2,1). -/
def wideRef : vfield ℤ :=
  { Vx := ⟨demoArray ⟨2, 1, 1⟩ ⟨-1, 0, 0⟩ (fun n => 1000 + n), ⟨2, 1, 1⟩, ⟨-1, 0, 0⟩, ⟨0, 0, 0⟩, true, false⟩
    Vy := ⟨demoArray ⟨1, 3, 1⟩ ⟨0, -1, 0⟩ (fun n => 3000 + n), ⟨1, 3, 1⟩, ⟨0, -1, 0⟩, ⟨0, 1, 0⟩, false, true⟩
    Vz := ⟨demoArray ⟨1, 1, 2⟩ ⟨0, 0, -1⟩ (fun n => 6000 + n), ⟨1, 1, 2⟩, ⟨0, 0, -1⟩, ⟨0, 0, 0⟩, false, false⟩ }

/-- Store with three kinds of plain field and two staggered ones.  The plain
field at address 0 holds `Vx = [1,2]`, `Vy = [3,4]`, `Vz = [5,6]`; the one at
address 1 has the same layout and holds `[10,20]`, `[30,40]`, `[50,60]`; every
other plain field is built from `wideRef` and holds `[100,101]`,
`[300,301,302]`, `[600,601]`.  The staggered field at address 0 is `pairRef`,
every other one is `wideRef`. -/
def demoStore : Store ℤ :=
  ⟨fun p =>
      if p = 0 then
        plainvf.plainvf scenarioGrid pairRef (fun c n =>
          match c with
          | .Vx => 1 + n
          | .Vy => 3 + n
          | .Vz => 5 + n)
      else if p = 1 then
        plainvf.plainvf scenarioGrid pairRef (fun c n =>
          match c with
          | .Vx => 10 * (1 + n)
          | .Vy => 10 * (3 + n)
          | .Vz => 10 * (5 + n))
      else
        plainvf.plainvf scenarioGrid wideRef (fun c n =>
          match c with
          | .Vx => 100 + n
          | .Vy => 300 + n
          | .Vz => 600 + n),
    fun p => if p = 0 then pairRef else wideRef⟩

/-- Frame of an operator call on the plain field at `self`, from the store `s`
before the call to the store `t` after it: the staggered fields and every
other plain field are as they were, and the field at `self` has kept its grid
reference, its three handles and the layout of its three arrays. -/
def Store.framed {real : Type} (self : Nat) (s t : Store real) : Prop :=
  t.vf = s.vf ∧ (∀ q, q ≠ self → t.pvf q = s.pvf q) ∧
  (t.pvf self).gridData = (s.pvf self).gridData ∧
  (∀ c, (t.pvf self).mpiData c = (s.pvf self).mpiData c) ∧
  ∀ c, ((t.pvf self).comp c).sameLayout ((s.pvf self).comp c)

/-- Reference field with a zero-sized first axis in `Vx` and three components
of unrelated shapes: (0,4,4), (3,1,1) and (1,1,2). -/
def degenerateRef : vfield ℤ :=
  { Vx := ⟨BArray.empty, ⟨0, 4, 4⟩, ⟨-2, 0, 0⟩, ⟨-3, 3, 3⟩, true, false⟩
    Vy := ⟨BArray.empty, ⟨3, 1, 1⟩, ⟨0, 0, 0⟩, ⟨2, 0, 0⟩, false, true⟩
    Vz := ⟨BArray.empty, ⟨1, 1, 2⟩, ⟨0, 0, -1⟩, ⟨0, 0, 0⟩, false, false⟩ }

/-- The scalar field `f` with both stagger flags negated. -/
def sfield.flipStag {real : Type} (f : sfield real) : sfield real :=
  { f with xStag := !f.xStag, yStag := !f.yStag }

/-- Store with the plain fields of `demoStore`; the staggered field at address
0 is `pairRef`, every other one has the raw arrays of `pairRef` and all six
stagger flags negated. -/
def flagStore : Store ℤ :=
  ⟨demoStore.pvf,
    fun p => if p = 0 then pairRef
      else ⟨pairRef.Vx.flipStag, pairRef.Vy.flipStag, pairRef.Vz.flipStag⟩⟩

/-- Array of `double` cells with the given extents and lower bounds, holding
the listed cells in storage order. -/
def fpArray (extent lbound : TinyVector) (cells : List (Fp binary64)) : BArray (Fp binary64) :=
  BArray.reindexSelf (BArray.resize BArray.empty extent (fun n => cells.getD n Fp.nan)) lbound

/-- Staggered field of `double` cells with the layout of `pairRef`; its raw
arrays hold `[2^53, 1]`, `[1, +inf]` and `[1, 1]`. -/
def fpRef : vfield (Fp binary64) :=
  { Vx := ⟨fpArray ⟨2, 1, 1⟩ ⟨-1, 0, 0⟩ [Fp.ofScaled 1 53, Fp.finite 1],
      ⟨2, 1, 1⟩, ⟨-1, 0, 0⟩, ⟨0, 0, 0⟩, true, false⟩
    Vy := ⟨fpArray ⟨1, 2, 1⟩ ⟨0, -1, 0⟩ [Fp.finite 1, Fp.inf false],
      ⟨1, 2, 1⟩, ⟨0, -1, 0⟩, ⟨0, 0, 0⟩, false, true⟩
    Vz := ⟨fpArray ⟨1, 1, 2⟩ ⟨0, 0, -1⟩ [Fp.finite 1, Fp.finite 1],
      ⟨1, 1, 2⟩, ⟨0, 0, -1⟩, ⟨0, 0, 0⟩, false, false⟩ }

/-- Store of fields with `double` cells, all with the layout of `fpRef`.  The
plain field at address 0 holds `Vx = [1, 2^1023]`, `Vy = [3, +inf]`,
`Vz = [1, 1]`; every other plain field holds `Vx = [2^53, 2^1023]`,
`Vy = [1, 1]`, `Vz = [1, 1]`; every staggered field is `fpRef`. -/
def fpStore : Store (Fp binary64) :=
  ⟨fun p =>
      if p = 0 then
        plainvf.plainvf scenarioGrid fpRef (fun c n =>
          match c with
          | .Vx => [Fp.finite 1, Fp.ofScaled 1 1023].getD n Fp.nan
          | .Vy => [Fp.finite 3, Fp.inf false].getD n Fp.nan
          | .Vz => Fp.finite 1)
      else
        plainvf.plainvf scenarioGrid fpRef (fun c n =>
          match c with
          | .Vx => [Fp.ofScaled 1 53, Fp.ofScaled 1 1023].getD n Fp.nan
          | .Vy => Fp.finite 1
          | .Vz => Fp.finite 1),
    fun _ => fpRef⟩

end Loiret

/-! ## Auxiliary lemmas -/

namespace Loiret

variable {real : Type}

theorem offset_bound {a b c X Y Z : Nat} (ha : a < X) (hb : b < Y) (hc : c < Z) :
    (a * Y + b) * Z + c < X * Y * Z := by
  have h1 : a * Y + b + 1 ≤ X * Y := by
    calc a * Y + b + 1 ≤ a * Y + Y := by omega
      _ = (a + 1) * Y := by ring
      _ ≤ X * Y := Nat.mul_le_mul_right Y ha
  calc (a * Y + b) * Z + c < (a * Y + b) * Z + Z := by omega
    _ = (a * Y + b + 1) * Z := by ring
    _ ≤ X * Y * Z := Nat.mul_le_mul_right Z h1

theorem BArray.eq_of_fields {A B : BArray real} (he : A.extent = B.extent)
    (hl : A.lbound = B.lbound) (hd : A.data = B.data) : A = B := by
  cases A; cases B; simp only [BArray.mk.injEq]; exact ⟨he, hl, hd⟩

theorem BArray.offset_lt (A : BArray real) (i : TinyVector) (h : A.inRange i) :
    A.offset i < A.data.length := by
  obtain ⟨⟨hx1, hx2⟩, ⟨hy1, hy2⟩, ⟨hz1, hz2⟩⟩ := h
  rw [A.size_eq]
  unfold BArray.offset TinyVector.product
  apply offset_bound <;> omega

theorem BArray.get?_of_inRange (A : BArray real) (i : TinyVector) (h : A.inRange i) :
    ∃ v, A.get? i = some v ∧ A.data[A.offset i]? = some v := by
  have hlt := A.offset_lt i h
  refine ⟨A.data[A.offset i], ?_, List.getElem?_eq_getElem hlt⟩
  unfold BArray.get?
  rw [if_pos h]
  exact List.getElem?_eq_getElem hlt

theorem BArray.inRange_congr {A B : BArray real} (h : A.sameLayout B) (i : TinyVector) :
    A.inRange i ↔ B.inRange i := by
  unfold BArray.inRange; rw [h.1, h.2]

theorem BArray.offset_congr {A B : BArray real} (h : A.sameLayout B) (i : TinyVector) :
    A.offset i = B.offset i := by
  unfold BArray.offset; rw [h.1, h.2]

theorem BArray.length_eq_of_sameLayout {A B : BArray real} (h : A.sameLayout B) :
    A.data.length = B.data.length := by
  rw [A.size_eq, B.size_eq, h.1]

theorem BArray.evaluate_of_le (upd : real → real → real) (dst src : BArray real)
    (h : dst.data.length ≤ src.data.length) :
    ∃ r, BArray.evaluate upd dst src = .ok r ∧ r.extent = dst.extent ∧ r.lbound = dst.lbound ∧
      r.data = List.zipWith upd dst.data src.data := by
  unfold BArray.evaluate
  rw [dif_pos h]
  exact ⟨_, rfl, rfl, rfl, rfl⟩

theorem BArray.evaluate_ok_inv {upd : real → real → real} {dst src r : BArray real}
    (h : BArray.evaluate upd dst src = .ok r) :
    dst.data.length ≤ src.data.length ∧ r.extent = dst.extent ∧ r.lbound = dst.lbound ∧
      r.data = List.zipWith upd dst.data src.data := by
  unfold BArray.evaluate at h
  by_cases hle : dst.data.length ≤ src.data.length
  · rw [dif_pos hle] at h
    injection h with h
    subst h
    exact ⟨hle, rfl, rfl, rfl⟩
  · rw [dif_neg hle] at h
    cases h

/-- Reading a cell of an elementwise result: at a valid index of the
destination, when the operand has the destination's layout, the new cell is
the update of the two old cells at that index. -/
theorem BArray.get?_zipWith {upd : real → real → real} {dst src r : BArray real}
    (he : r.extent = dst.extent) (hl : r.lbound = dst.lbound)
    (hd : r.data = List.zipWith upd dst.data src.data) (hlay : dst.sameLayout src)
    (i : TinyVector) (hi : dst.inRange i) :
    ∃ p q, dst.get? i = some p ∧ src.get? i = some q ∧ r.get? i = some (upd p q) := by
  obtain ⟨p, hp, hp2⟩ := dst.get?_of_inRange i hi
  obtain ⟨q, hq, hq2⟩ := src.get?_of_inRange i ((BArray.inRange_congr hlay i).1 hi)
  refine ⟨p, q, hp, hq, ?_⟩
  have hri : r.inRange i := (@BArray.inRange_congr _ r dst ⟨he, hl⟩ i).2 hi
  have hro : r.offset i = dst.offset i := @BArray.offset_congr _ r dst ⟨he, hl⟩ i
  unfold BArray.get?
  rw [if_pos hri, hd, List.getElem?_zipWith, hro, hp2, BArray.offset_congr hlay i, hq2]

/-- Reading a cell of a scalar update: at a valid index the new cell is the
update of the old cell. -/
theorem BArray.get?_evaluateScalar (upd : real → real → real) (dst : BArray real) (a : real)
    (i : TinyVector) (hi : dst.inRange i) :
    ∃ p, dst.get? i = some p ∧ (BArray.evaluateScalar upd dst a).get? i = some (upd p a) := by
  obtain ⟨p, hp, hp2⟩ := dst.get?_of_inRange i hi
  refine ⟨p, hp, ?_⟩
  have hri : (BArray.evaluateScalar upd dst a).inRange i := hi
  have hro : (BArray.evaluateScalar upd dst a).offset i = dst.offset i := rfl
  unfold BArray.get?
  rw [if_pos hri, hro]
  show (List.map (fun v => upd v a) dst.data)[dst.offset i]? = some (upd p a)
  rw [List.getElem?_map, hp2]
  rfl

end Loiret

/-! ## The store and the sequential bodies -/

namespace Loiret

variable {real : Type}

theorem Store.setVx_pvf (s : Store real) (p q : Nat) (A : BArray real) :
    (s.setVx p A).pvf q = if q = p then { s.pvf p with Vx := A } else s.pvf q := by
  unfold Store.setVx
  simp [Function.update_apply]

theorem Store.setVy_pvf (s : Store real) (p q : Nat) (A : BArray real) :
    (s.setVy p A).pvf q = if q = p then { s.pvf p with Vy := A } else s.pvf q := by
  unfold Store.setVy
  simp [Function.update_apply]

theorem Store.set3 (s : Store real) (p : Nat) (vx vy vz : BArray real) :
    ((s.setVx p vx).setVy p vy).setVz p vz =
      ⟨Function.update s.pvf p { s.pvf p with Vx := vx, Vy := vy, Vz := vz }, s.vf⟩ := by
  simp [Store.setVx, Store.setVy, Store.setVz]

/-- Writing `Vx` of some field leaves `Vy` of every field as it was. -/
theorem Store.setVx_Vy (s : Store real) (p q : Nat) (A : BArray real) :
    ((s.setVx p A).pvf q).Vy = (s.pvf q).Vy := by
  rw [Store.setVx_pvf]; split
  · next h => subst h; rfl
  · rfl

/-- Writing `Vx` of some field leaves `Vz` of every field as it was. -/
theorem Store.setVx_Vz (s : Store real) (p q : Nat) (A : BArray real) :
    ((s.setVx p A).pvf q).Vz = (s.pvf q).Vz := by
  rw [Store.setVx_pvf]; split
  · next h => subst h; rfl
  · rfl

/-- Writing `Vy` of some field leaves `Vz` of every field as it was. -/
theorem Store.setVy_Vz (s : Store real) (p q : Nat) (A : BArray real) :
    ((s.setVy p A).pvf q).Vz = (s.pvf q).Vz := by
  rw [Store.setVy_pvf]; split
  · next h => subst h; rfl
  · rfl

/-- Writing an array of a plain field leaves the staggered fields alone. -/
theorem Store.setVx_vf (s : Store real) (p : Nat) (A : BArray real) : (s.setVx p A).vf = s.vf :=
  rfl

/-- Writing an array of a plain field leaves the staggered fields alone. -/
theorem Store.setVy_vf (s : Store real) (p : Nat) (A : BArray real) : (s.setVy p A).vf = s.vf :=
  rfl

end Loiret

/-! ## The operators in snapshot form -/

namespace Loiret

variable {real : Type}

/-- Operator `opAddAssign_plainvf` is the snapshot form for its cell update. -/
theorem plainvf.opAddAssign_plainvf_eq [Add real] (self a : Nat) (s : Store real) :
    plainvf.opAddAssign_plainvf self a s =
      (plainvf.fieldOp (fun v w => v + w) self (s.pvf a).comp s).map (fun t => (self, t)) := by
  unfold plainvf.opAddAssign_plainvf plainvf.fieldOp BArray.addAssign
  simp only [Store.setVx_Vy, Store.setVx_Vz, Store.setVy_Vz, Store.setVx_vf, Store.setVy_vf,
    Store.set3, plainvf.comp, vfield.comp]
  cases BArray.evaluate (fun v w => v + w) (s.pvf self).Vx (s.pvf a).Vx <;>
  cases BArray.evaluate (fun v w => v + w) (s.pvf self).Vy (s.pvf a).Vy <;>
  cases BArray.evaluate (fun v w => v + w) (s.pvf self).Vz (s.pvf a).Vz <;> rfl

/-- Operator `opSubAssign_plainvf` is the snapshot form for its cell update. -/
theorem plainvf.opSubAssign_plainvf_eq [Sub real] (self a : Nat) (s : Store real) :
    plainvf.opSubAssign_plainvf self a s =
      (plainvf.fieldOp (fun v w => v - w) self (s.pvf a).comp s).map (fun t => (self, t)) := by
  unfold plainvf.opSubAssign_plainvf plainvf.fieldOp BArray.subAssign
  simp only [Store.setVx_Vy, Store.setVx_Vz, Store.setVy_Vz, Store.setVx_vf, Store.setVy_vf,
    Store.set3, plainvf.comp, vfield.comp]
  cases BArray.evaluate (fun v w => v - w) (s.pvf self).Vx (s.pvf a).Vx <;>
  cases BArray.evaluate (fun v w => v - w) (s.pvf self).Vy (s.pvf a).Vy <;>
  cases BArray.evaluate (fun v w => v - w) (s.pvf self).Vz (s.pvf a).Vz <;> rfl

/-- Operator `opAssign_plainvf` is the snapshot form for its cell update. -/
theorem plainvf.opAssign_plainvf_eq (self a : Nat) (s : Store real) :
    plainvf.opAssign_plainvf self a s =
      (plainvf.fieldOp (fun _ w => w) self (s.pvf a).comp s).map (fun t => ((), t)) := by
  unfold plainvf.opAssign_plainvf plainvf.fieldOp BArray.assign
  simp only [Store.setVx_Vy, Store.setVx_Vz, Store.setVy_Vz, Store.setVx_vf, Store.setVy_vf,
    Store.set3, plainvf.comp, vfield.comp]
  cases BArray.evaluate (fun _ w => w) (s.pvf self).Vx (s.pvf a).Vx <;>
  cases BArray.evaluate (fun _ w => w) (s.pvf self).Vy (s.pvf a).Vy <;>
  cases BArray.evaluate (fun _ w => w) (s.pvf self).Vz (s.pvf a).Vz <;> rfl

/-- Operator `opAddAssign_vfield` is the snapshot form for its cell update. -/
theorem plainvf.opAddAssign_vfield_eq [Add real] (self a : Nat) (s : Store real) :
    plainvf.opAddAssign_vfield self a s =
      (plainvf.fieldOp (fun v w => v + w) self (fun c => ((s.vf a).comp c).F) s).map (fun t => (self, t)) := by
  unfold plainvf.opAddAssign_vfield plainvf.fieldOp BArray.addAssign
  simp only [Store.setVx_Vy, Store.setVx_Vz, Store.setVy_Vz, Store.setVx_vf, Store.setVy_vf,
    Store.set3, plainvf.comp, vfield.comp]
  cases BArray.evaluate (fun v w => v + w) (s.pvf self).Vx (s.vf a).Vx.F <;>
  cases BArray.evaluate (fun v w => v + w) (s.pvf self).Vy (s.vf a).Vy.F <;>
  cases BArray.evaluate (fun v w => v + w) (s.pvf self).Vz (s.vf a).Vz.F <;> rfl

/-- Operator `opSubAssign_vfield` is the snapshot form for its cell update. -/
theorem plainvf.opSubAssign_vfield_eq [Sub real] (self a : Nat) (s : Store real) :
    plainvf.opSubAssign_vfield self a s =
      (plainvf.fieldOp (fun v w => v - w) self (fun c => ((s.vf a).comp c).F) s).map (fun t => (self, t)) := by
  unfold plainvf.opSubAssign_vfield plainvf.fieldOp BArray.subAssign
  simp only [Store.setVx_Vy, Store.setVx_Vz, Store.setVy_Vz, Store.setVx_vf, Store.setVy_vf,
    Store.set3, plainvf.comp, vfield.comp]
  cases BArray.evaluate (fun v w => v - w) (s.pvf self).Vx (s.vf a).Vx.F <;>
  cases BArray.evaluate (fun v w => v - w) (s.pvf self).Vy (s.vf a).Vy.F <;>
  cases BArray.evaluate (fun v w => v - w) (s.pvf self).Vz (s.vf a).Vz.F <;> rfl

/-- Operator `opAssign_vfield` is the snapshot form for its cell update. -/
theorem plainvf.opAssign_vfield_eq (self a : Nat) (s : Store real) :
    plainvf.opAssign_vfield self a s =
      (plainvf.fieldOp (fun _ w => w) self (fun c => ((s.vf a).comp c).F) s).map (fun t => ((), t)) := by
  unfold plainvf.opAssign_vfield plainvf.fieldOp BArray.assign
  simp only [Store.setVx_Vy, Store.setVx_Vz, Store.setVy_Vz, Store.setVx_vf, Store.setVy_vf,
    Store.set3, plainvf.comp, vfield.comp]
  cases BArray.evaluate (fun _ w => w) (s.pvf self).Vx (s.vf a).Vx.F <;>
  cases BArray.evaluate (fun _ w => w) (s.pvf self).Vy (s.vf a).Vy.F <;>
  cases BArray.evaluate (fun _ w => w) (s.pvf self).Vz (s.vf a).Vz.F <;> rfl

/-- Operator `opMulAssign_real` is the snapshot form for multiplication. -/
theorem plainvf.opMulAssign_real_eq [Mul real] (self : Nat) (a : real) (s : Store real) :
    plainvf.opMulAssign_real self a s = (self, plainvf.scalarOp (fun v w => v * w) self a s) := by
  unfold plainvf.opMulAssign_real plainvf.scalarOp BArray.mulAssignScalar
  simp only [Store.setVx_Vy, Store.setVx_Vz, Store.setVy_Vz, Store.set3]

/-- Operator `opAssign_real` is the snapshot form for overwriting. -/
theorem plainvf.opAssign_real_eq (self : Nat) (a : real) (s : Store real) :
    plainvf.opAssign_real self a s = ((), plainvf.scalarOp (fun _ w => w) self a s) := by
  unfold plainvf.opAssign_real plainvf.scalarOp BArray.assignScalar
  simp only [Store.setVx_Vy, Store.setVx_Vz, Store.setVy_Vz, Store.set3]

/-- A field-operand operator completes when every operand array has at least
as many cells as the array it updates, and then has the effect
`Store.fieldUpdated`. -/
theorem plainvf.fieldOp_ok (upd : real → real → real) (self : Nat) (src : Component → BArray real)
    (s : Store real) (h : ∀ c, ((s.pvf self).comp c).data.length ≤ (src c).data.length) :
    ∃ t, plainvf.fieldOp upd self src s = .ok t ∧ Store.fieldUpdated upd self src s t := by
  obtain ⟨vx, ex, hx⟩ := BArray.evaluate_of_le upd (s.pvf self).Vx (src .Vx) (h .Vx)
  obtain ⟨vy, ey, hy⟩ := BArray.evaluate_of_le upd (s.pvf self).Vy (src .Vy) (h .Vy)
  obtain ⟨vz, ez, hz⟩ := BArray.evaluate_of_le upd (s.pvf self).Vz (src .Vz) (h .Vz)
  refine ⟨⟨Function.update s.pvf self { s.pvf self with Vx := vx, Vy := vy, Vz := vz }, s.vf⟩, ?_, ?_⟩
  · unfold plainvf.fieldOp
    rw [ex, ey, ez]
    rfl
  · refine ⟨rfl, ?_, ?_, ?_, ?_⟩
    · intro q hq
      simp [Function.update_noteq hq]
    · simp
    · intro c; cases c <;> simp [plainvf.mpiData]
    · intro c; cases c <;> simpa [plainvf.comp] using (by assumption)

/-- A field-operand operator that completed found enough cells in every
operand array, and had the effect `Store.fieldUpdated`. -/
theorem plainvf.fieldOp_inv {upd : real → real → real} {self : Nat} {src : Component → BArray real}
    {s t : Store real} (h : plainvf.fieldOp upd self src s = .ok t) :
    (∀ c, ((s.pvf self).comp c).data.length ≤ (src c).data.length) ∧
      Store.fieldUpdated upd self src s t := by
  have key : ∀ c, ((s.pvf self).comp c).data.length ≤ (src c).data.length := by
    unfold plainvf.fieldOp at h
    cases hx : BArray.evaluate upd (s.pvf self).Vx (src .Vx) with
    | error e => rw [hx] at h; cases h
    | ok vx =>
      cases hy : BArray.evaluate upd (s.pvf self).Vy (src .Vy) with
      | error e => rw [hx, hy] at h; cases h
      | ok vy =>
        cases hz : BArray.evaluate upd (s.pvf self).Vz (src .Vz) with
        | error e => rw [hx, hy, hz] at h; cases h
        | ok vz =>
          intro c
          cases c
          · exact (BArray.evaluate_ok_inv hx).1
          · exact (BArray.evaluate_ok_inv hy).1
          · exact (BArray.evaluate_ok_inv hz).1
  refine ⟨key, ?_⟩
  obtain ⟨t2, h2, hpost⟩ := plainvf.fieldOp_ok upd self src s key
  rw [h] at h2
  injection h2 with h2
  subst h2
  exact hpost

/-- The array of a component after a scalar-operand operator. -/
theorem plainvf.scalarOp_comp (upd : real → real → real) (self : Nat) (a : real) (s : Store real)
    (c : Component) :
    ((plainvf.scalarOp upd self a s).pvf self).comp c =
      BArray.evaluateScalar upd ((s.pvf self).comp c) a := by
  cases c <;> simp [plainvf.scalarOp, plainvf.comp]

end Loiret

/-! ## Construction and elementwise operators -/

namespace Loiret

variable {real : Type}

/-- Cells of a completed field-operand operator, by index: when every operand
array has the layout of the array it updates, the operator completes, and at
every valid index the new cell is the update of the old cell with the
operand's cell at that index. -/
theorem plainvf.fieldOp_get? (upd : real → real → real) (self : Nat)
    (src : Component → BArray real) (s : Store real)
    (hlay : ∀ c, ((s.pvf self).comp c).sameLayout (src c)) :
    ∃ t, plainvf.fieldOp upd self src s = .ok t ∧ Store.fieldUpdated upd self src s t ∧
      ∀ c i, ((s.pvf self).comp c).inRange i →
        ∃ p q, ((s.pvf self).comp c).get? i = some p ∧ (src c).get? i = some q ∧
          ((t.pvf self).comp c).get? i = some (upd p q) := by
  obtain ⟨t, ht, hpost⟩ := plainvf.fieldOp_ok upd self src s
    (fun c => le_of_eq (BArray.length_eq_of_sameLayout (hlay c)))
  refine ⟨t, ht, hpost, ?_⟩
  intro c i hi
  obtain ⟨he, hl, hd⟩ := hpost.2.2.2.2 c
  exact BArray.get?_zipWith he hl hd (hlay c) i hi

/-- C1 (shape fidelity of construction): for every domain descriptor `D`,
reference field `R` and content of the freshly allocated blocks, every
component `c` of the field built by the constructor has the extent
`R.c.fSize` and the lower index bound `R.c.flBound` along every axis, so that
its valid indices are exactly the triples between `flBound` and
`flBound + fSize`. -/
theorem C1_shape_fidelity (D : grid) (R : vfield real) (fresh : Component → Nat → real)
    (c : Component) :
    ((plainvf.plainvf D R fresh).comp c).extent = (R.comp c).fSize ∧
    ((plainvf.plainvf D R fresh).comp c).lbound = (R.comp c).flBound ∧
    ((plainvf.plainvf D R fresh).comp c).data.length = (R.comp c).fSize.product ∧
    ∀ i : TinyVector, ((plainvf.plainvf D R fresh).comp c).inRange i ↔
      (((R.comp c).flBound.x ≤ i.x ∧ i.x < (R.comp c).flBound.x + (R.comp c).fSize.x) ∧
       ((R.comp c).flBound.y ≤ i.y ∧ i.y < (R.comp c).flBound.y + (R.comp c).fSize.y) ∧
       ((R.comp c).flBound.z ≤ i.z ∧ i.z < (R.comp c).flBound.z + (R.comp c).fSize.z)) := by
  cases c <;>
    exact ⟨rfl, rfl, BArray.size_eq _, fun i => Iff.rfl⟩

/-- C2 (broadcast assignment): after `A = a` for a scalar `a`, every component
of `A` keeps its layout, its cell at every valid index `i` (ghost cells
included) equals `a`, and its storage is `numElements` copies of `a`. -/
theorem C2_broadcast_assignment (s : Store real) (self : Nat) (a : real) (c : Component)
    (i : TinyVector) (hi : ((s.pvf self).comp c).inRange i) :
    (((plainvf.opAssign_real self a s).2.pvf self).comp c).sameLayout ((s.pvf self).comp c) ∧
    (((plainvf.opAssign_real self a s).2.pvf self).comp c).get? i = some a ∧
    (((plainvf.opAssign_real self a s).2.pvf self).comp c).data =
      List.replicate ((s.pvf self).comp c).numElements a := by
  rw [plainvf.opAssign_real_eq]
  simp only [plainvf.scalarOp_comp]
  refine ⟨⟨rfl, rfl⟩, ?_, ?_⟩
  · obtain ⟨p, -, hp⟩ := BArray.get?_evaluateScalar (fun _ w => w) ((s.pvf self).comp c) a i hi
    exact hp
  · show List.map (fun _ => a) ((s.pvf self).comp c).data = _
    rw [BArray.numElements, ← ((s.pvf self).comp c).size_eq]
    exact List.map_const _ a

/-- C2 at the scenario of the specification: the `Vx` of shape (8,4,4) has
128 cells, all equal to 5 after `P = 5`, the ghost cell of index (-2,0,0)
among them. -/
theorem C2_broadcast_assignment_scenario :
    ((scenarioStore.pvf 0).comp .Vx).extent = ⟨8, 4, 4⟩ ∧
    ((scenarioStore.pvf 0).comp .Vx).inRange ⟨-2, 0, 0⟩ ∧
    (((plainvf.opAssign_real 0 5 scenarioStore).2.pvf 0).comp .Vx).get? ⟨-2, 0, 0⟩ = some 5 ∧
    (((plainvf.opAssign_real 0 5 scenarioStore).2.pvf 0).comp .Vx).data = List.replicate 128 5 :=
  ⟨rfl, by decide,
    (C2_broadcast_assignment scenarioStore 0 5 .Vx ⟨-2, 0, 0⟩ (by decide)).2.1,
    (C2_broadcast_assignment scenarioStore 0 5 .Vx ⟨-2, 0, 0⟩ (by decide)).2.2⟩

/-- C3 (in-place add and subtract of a plain field): when every component of
the operand `a` has the shape and index bounds of the same component of
`self`, `self += a` and `self -= a` complete and return the address of
`self`, and at every valid index `i` of every component `c`, ghost cells
included, the new cell is the old cell plus (minus) the cell of `a` at `i`. -/
theorem C3_add_sub_plain [Add real] [Sub real] (s : Store real) (self a : Nat) (c : Component)
    (i : TinyVector)
    (hlay : ∀ c, ((s.pvf self).comp c).sameLayout ((s.pvf a).comp c))
    (hi : ((s.pvf self).comp c).inRange i) :
    ∃ p q, ((s.pvf self).comp c).get? i = some p ∧ ((s.pvf a).comp c).get? i = some q ∧
      (∃ t, plainvf.opAddAssign_plainvf self a s = .ok (self, t) ∧
        ((t.pvf self).comp c).get? i = some (p + q)) ∧
      (∃ t, plainvf.opSubAssign_plainvf self a s = .ok (self, t) ∧
        ((t.pvf self).comp c).get? i = some (p - q)) := by
  obtain ⟨t1, h1, -, g1⟩ := plainvf.fieldOp_get? (fun v w => v + w) self (s.pvf a).comp s hlay
  obtain ⟨t2, h2, -, g2⟩ := plainvf.fieldOp_get? (fun v w => v - w) self (s.pvf a).comp s hlay
  obtain ⟨p, q, hp, hq, hr1⟩ := g1 c i hi
  obtain ⟨p2, q2, hp2, hq2, hr2⟩ := g2 c i hi
  have ep : p2 = p := Option.some.inj (hp2.symm.trans hp)
  have eq : q2 = q := Option.some.inj (hq2.symm.trans hq)
  subst ep eq
  refine ⟨p2, q2, hp, hq, ⟨t1, ?_, hr1⟩, ⟨t2, ?_, hr2⟩⟩
  · rw [plainvf.opAddAssign_plainvf_eq, h1]; rfl
  · rw [plainvf.opSubAssign_plainvf_eq, h2]; rfl

/-- C3 on `demoStore`: the ghost cell (-1,0,0) of `Vx` holds 1 in the field at
address 0 and 10 in the field at address 1; after `+=` it holds 11, after
`-=` it holds -9. -/
theorem C3_add_sub_plain_demo :
    (∀ c, ((demoStore.pvf 0).comp c).sameLayout ((demoStore.pvf 1).comp c)) ∧
    ((demoStore.pvf 0).comp .Vx).inRange ⟨-1, 0, 0⟩ ∧
    ∃ p q, ((demoStore.pvf 0).comp .Vx).get? ⟨-1, 0, 0⟩ = some p ∧
      ((demoStore.pvf 1).comp .Vx).get? ⟨-1, 0, 0⟩ = some q ∧
      (∃ t, plainvf.opAddAssign_plainvf 0 1 demoStore = .ok (0, t) ∧
        ((t.pvf 0).comp .Vx).get? ⟨-1, 0, 0⟩ = some (p + q)) ∧
      (∃ t, plainvf.opSubAssign_plainvf 0 1 demoStore = .ok (0, t) ∧
        ((t.pvf 0).comp .Vx).get? ⟨-1, 0, 0⟩ = some (p - q)) :=
  ⟨by decide, by decide,
    C3_add_sub_plain demoStore 0 1 .Vx ⟨-1, 0, 0⟩ (by decide) (by decide)⟩

end Loiret

namespace Loiret

variable {real : Type}

/-- C4 (in-place add and subtract of a staggered field): when the raw array
`F` of every component of the operand `a` has the shape and index bounds of
the same component of `self`, `self += a` and `self -= a` complete and return
the address of `self`, and at every valid index `i` of every component `c`,
ghost cells included, the new cell is the old cell plus (minus) the cell of
`a.c.F` at `i`. -/
theorem C4_add_sub_staggered [Add real] [Sub real] (s : Store real) (self a : Nat)
    (c : Component) (i : TinyVector)
    (hlay : ∀ c, ((s.pvf self).comp c).sameLayout ((s.vf a).comp c).F)
    (hi : ((s.pvf self).comp c).inRange i) :
    ∃ p q, ((s.pvf self).comp c).get? i = some p ∧ ((s.vf a).comp c).F.get? i = some q ∧
      (∃ t, plainvf.opAddAssign_vfield self a s = .ok (self, t) ∧
        ((t.pvf self).comp c).get? i = some (p + q)) ∧
      (∃ t, plainvf.opSubAssign_vfield self a s = .ok (self, t) ∧
        ((t.pvf self).comp c).get? i = some (p - q)) := by
  obtain ⟨t1, h1, -, g1⟩ :=
    plainvf.fieldOp_get? (fun v w => v + w) self (fun c => ((s.vf a).comp c).F) s hlay
  obtain ⟨t2, h2, -, g2⟩ :=
    plainvf.fieldOp_get? (fun v w => v - w) self (fun c => ((s.vf a).comp c).F) s hlay
  obtain ⟨p, q, hp, hq, hr1⟩ := g1 c i hi
  obtain ⟨p2, q2, hp2, hq2, hr2⟩ := g2 c i hi
  have ep : p2 = p := Option.some.inj (hp2.symm.trans hp)
  have eq : q2 = q := Option.some.inj (hq2.symm.trans hq)
  subst ep eq
  refine ⟨p2, q2, hp, hq, ⟨t1, ?_, hr1⟩, ⟨t2, ?_, hr2⟩⟩
  · rw [plainvf.opAddAssign_vfield_eq, h1]; rfl
  · rw [plainvf.opSubAssign_vfield_eq, h2]; rfl

/-- C4 on `demoStore`: the last cell (0,0,0) of `Vz` holds 6 in the plain
field at address 0 and 12 in the staggered field at address 0; after `+=` it
holds 18, after `-=` it holds -6. -/
theorem C4_add_sub_staggered_demo :
    (∀ c, ((demoStore.pvf 0).comp c).sameLayout ((demoStore.vf 0).comp c).F) ∧
    ((demoStore.pvf 0).comp .Vz).inRange ⟨0, 0, 0⟩ ∧
    ∃ p q, ((demoStore.pvf 0).comp .Vz).get? ⟨0, 0, 0⟩ = some p ∧
      ((demoStore.vf 0).comp .Vz).F.get? ⟨0, 0, 0⟩ = some q ∧
      (∃ t, plainvf.opAddAssign_vfield 0 0 demoStore = .ok (0, t) ∧
        ((t.pvf 0).comp .Vz).get? ⟨0, 0, 0⟩ = some (p + q)) ∧
      (∃ t, plainvf.opSubAssign_vfield 0 0 demoStore = .ok (0, t) ∧
        ((t.pvf 0).comp .Vz).get? ⟨0, 0, 0⟩ = some (p - q)) :=
  ⟨by decide, by decide,
    C4_add_sub_staggered demoStore 0 0 .Vz ⟨0, 0, 0⟩ (by decide) (by decide)⟩

/-- C6 (scale in place): `self *= a` returns the address of `self`, keeps the
layout of every component, and at every valid index `i` of every component
`c`, ghost cells included, leaves the old cell times `a`. -/
theorem C6_scale_in_place [Mul real] (s : Store real) (self : Nat) (a : real) (c : Component)
    (i : TinyVector) (hi : ((s.pvf self).comp c).inRange i) :
    (plainvf.opMulAssign_real self a s).1 = self ∧
    (((plainvf.opMulAssign_real self a s).2.pvf self).comp c).sameLayout ((s.pvf self).comp c) ∧
    ∃ p, ((s.pvf self).comp c).get? i = some p ∧
      (((plainvf.opMulAssign_real self a s).2.pvf self).comp c).get? i = some (p * a) := by
  refine ⟨rfl, ?_⟩
  rw [plainvf.opMulAssign_real_eq, plainvf.scalarOp_comp]
  exact ⟨⟨rfl, rfl⟩,
    BArray.get?_evaluateScalar (fun v w => v * w) ((s.pvf self).comp c) a i hi⟩

/-- C6 on `demoStore`: the ghost cell (0,-1,0) of `Vy` of the field at address
0 holds 3, and 21 after `*= 7`. -/
theorem C6_scale_in_place_demo :
    ((demoStore.pvf 0).comp .Vy).inRange ⟨0, -1, 0⟩ ∧
    (plainvf.opMulAssign_real 0 7 demoStore).1 = 0 ∧
    (((plainvf.opMulAssign_real 0 7 demoStore).2.pvf 0).comp .Vy).sameLayout
      ((demoStore.pvf 0).comp .Vy) ∧
    ∃ p, ((demoStore.pvf 0).comp .Vy).get? ⟨0, -1, 0⟩ = some p ∧
      (((plainvf.opMulAssign_real 0 7 demoStore).2.pvf 0).comp .Vy).get? ⟨0, -1, 0⟩ = some (p * 7) :=
  ⟨by decide, C6_scale_in_place demoStore 0 7 .Vy ⟨0, -1, 0⟩ (by decide)⟩

end Loiret

/-! ## Operands of a different shape -/

namespace Loiret

variable {real : Type}

theorem Except.map_map_snd {ε α β : Type} (x : Except ε β) (b : α) :
    (x.map (fun t => (b, t))).map Prod.snd = x := by
  cases x <;> rfl

/-- Each of the six operators, seen through `FieldOperator.run`, is the
snapshot form for its cell update and its operand arrays. -/
theorem FieldOperator.run_eq [Add real] [Sub real] (op : FieldOperator) (self a : Nat)
    (s : Store real) :
    op.run self a s = plainvf.fieldOp op.upd self (op.operand s a) s := by
  cases op
  · simp only [FieldOperator.run, plainvf.opAddAssign_plainvf_eq, Except.map_map_snd]; rfl
  · simp only [FieldOperator.run, plainvf.opSubAssign_plainvf_eq, Except.map_map_snd]; rfl
  · simp only [FieldOperator.run, plainvf.opAssign_plainvf_eq, Except.map_map_snd]; rfl
  · simp only [FieldOperator.run, plainvf.opAddAssign_vfield_eq, Except.map_map_snd]; rfl
  · simp only [FieldOperator.run, plainvf.opSubAssign_vfield_eq, Except.map_map_snd]; rfl
  · simp only [FieldOperator.run, plainvf.opAssign_vfield_eq, Except.map_map_snd]; rfl

/-- Only as many cells of the operand as the destination has are used. -/
theorem zipWith_take_right (f : real → real → real) (xs ys : List real) :
    List.zipWith f xs ys = List.zipWith f xs (ys.take xs.length) := by
  induction xs generalizing ys with
  | nil => simp
  | cons x xs ih =>
    cases ys with
    | nil => simp
    | cons y ys =>
      simp only [List.zipWith_cons_cons, List.length_cons, List.take_succ_cons]
      rw [← ih ys]

/-- C9, counterexample: on `demoStore` the plain field at address 2 has a `Vy`
of shape (1,3,1), the field at address 0 a `Vy` of shape (1,2,1).  Both
`P0 += P2` and `P0 = P2` complete all the same: no error is raised, and the
`Vy` of the result is computed from the first two of the operand's three
cells. -/
theorem C9_mismatch_not_rejected :
    ((demoStore.pvf 0).comp .Vy).extent = ⟨1, 2, 1⟩ ∧
    ((demoStore.pvf 2).comp .Vy).extent = ⟨1, 3, 1⟩ ∧
    (∃ t, plainvf.opAddAssign_plainvf 0 2 demoStore = .ok (0, t) ∧
      (t.pvf 0).Vy.data = [303, 305]) ∧
    (∃ t, plainvf.opAssign_plainvf 0 2 demoStore = .ok ((), t) ∧
      (t.pvf 0).Vy.data = [300, 301]) := by
  refine ⟨by decide, by decide, ?_, ?_⟩
  · obtain ⟨t, ht, post⟩ := plainvf.fieldOp_ok (fun v w : ℤ => v + w) 0 (demoStore.pvf 2).comp
      demoStore (by decide)
    refine ⟨t, ?_, ?_⟩
    · rw [plainvf.opAddAssign_plainvf_eq, ht]; rfl
    · exact (post.2.2.2.2 .Vy).2.2.trans (by decide)
  · obtain ⟨t, ht, post⟩ := plainvf.fieldOp_ok (fun _ w : ℤ => w) 0 (demoStore.pvf 2).comp
      demoStore (by decide)
    refine ⟨t, ?_, ?_⟩
    · rw [plainvf.opAssign_plainvf_eq, ht]; rfl
    · exact (post.2.2.2.2 .Vy).2.2.trans (by decide)

/-- C9, amended: none of the six field-operand operators compares shapes or
raises a shape-mismatch error.  Whenever every operand array has at least as
many cells as the array of `self` it is combined with, whether or not the
shapes agree, the operator completes; every component of `self` keeps its own
shape and index bounds and holds, cell by cell in storage order, the update
of its old cell with the operand's cell at the same storage position, the
operand's cells beyond the last cell of `self` being ignored. -/
theorem C9_no_shape_check [Add real] [Sub real] (op : FieldOperator) (s : Store real)
    (self a : Nat)
    (h : ∀ c, ((s.pvf self).comp c).numElements ≤ (op.operand s a c).numElements) :
    ∃ t, op.run self a s = .ok t ∧
      ∀ c, ((t.pvf self).comp c).sameLayout ((s.pvf self).comp c) ∧
        ((t.pvf self).comp c).data =
          List.zipWith op.upd ((s.pvf self).comp c).data
            ((op.operand s a c).data.take ((s.pvf self).comp c).numElements) := by
  have hlen : ∀ c, ((s.pvf self).comp c).data.length ≤ (op.operand s a c).data.length := by
    intro c
    rw [BArray.size_eq, BArray.size_eq]
    exact h c
  obtain ⟨t, ht, post⟩ := plainvf.fieldOp_ok op.upd self (op.operand s a) s hlen
  refine ⟨t, ?_, fun c => ⟨⟨(post.2.2.2.2 c).1, (post.2.2.2.2 c).2.1⟩, ?_⟩⟩
  · rw [FieldOperator.run_eq, ht]
  · rw [(post.2.2.2.2 c).2.2, BArray.numElements, ← ((s.pvf self).comp c).size_eq]
    exact zipWith_take_right op.upd _ _

/-- C9, amended, on `demoStore`: the staggered field at address 1 has a `Vy.F`
of shape (1,3,1), holding `[3000, 3001, 3002]`, against the (1,2,1) of the
plain field at address 0, holding `[3, 4]`; `P0 -= S1` completes and leaves
`[-2997, -2997]` in `Vy`. -/
theorem C9_no_shape_check_demo :
    ((demoStore.vf 1).comp .Vy).F.extent ≠ ((demoStore.pvf 0).comp .Vy).extent ∧
    (∀ c, ((demoStore.pvf 0).comp c).numElements ≤
      (FieldOperator.subStaggered.operand demoStore 1 c).numElements) ∧
    List.zipWith FieldOperator.subStaggered.upd ((demoStore.pvf 0).comp .Vy).data
      ((FieldOperator.subStaggered.operand demoStore 1 .Vy).data.take
        ((demoStore.pvf 0).comp .Vy).numElements) = [-2997, -2997] ∧
    ∃ t, FieldOperator.subStaggered.run 0 1 demoStore = .ok t ∧
      ∀ c, ((t.pvf 0).comp c).sameLayout ((demoStore.pvf 0).comp c) ∧
        ((t.pvf 0).comp c).data =
          List.zipWith FieldOperator.subStaggered.upd ((demoStore.pvf 0).comp c).data
            ((FieldOperator.subStaggered.operand demoStore 1 c).data.take
              ((demoStore.pvf 0).comp c).numElements) :=
  ⟨by decide, by decide, by decide, C9_no_shape_check .subStaggered demoStore 0 1 (by decide)⟩

/-- C10, counterexample: on `demoStore` the operands at address 2 (plain) and
at address 1 (staggered) have a `Vx` of the shape (2,1,1) of the `Vx` of the
plain field at address 0, and a `Vy` of another shape.  `P0 += P2` and
`P0 += S1` complete, and `P0.Vx`, which held `[1,2]`, has been mutated. -/
theorem C10_vx_mutated_on_mismatch :
    (demoStore.pvf 0).Vx.data = [1, 2] ∧
    (demoStore.pvf 2).Vx.extent = (demoStore.pvf 0).Vx.extent ∧
    (demoStore.pvf 2).Vy.extent ≠ (demoStore.pvf 0).Vy.extent ∧
    (demoStore.vf 1).Vx.F.extent = (demoStore.pvf 0).Vx.extent ∧
    (demoStore.vf 1).Vy.F.extent ≠ (demoStore.pvf 0).Vy.extent ∧
    (∃ t, plainvf.opAddAssign_plainvf 0 2 demoStore = .ok (0, t) ∧
      (t.pvf 0).Vx.data = [101, 103]) ∧
    (∃ t, plainvf.opAddAssign_vfield 0 1 demoStore = .ok (0, t) ∧
      (t.pvf 0).Vx.data = [1001, 1003]) := by
  refine ⟨by decide, by decide, by decide, by decide, by decide, ?_, ?_⟩
  · obtain ⟨t, ht, post⟩ := plainvf.fieldOp_ok (fun v w : ℤ => v + w) 0 (demoStore.pvf 2).comp
      demoStore (by decide)
    refine ⟨t, ?_, ?_⟩
    · rw [plainvf.opAddAssign_plainvf_eq, ht]; rfl
    · exact (post.2.2.2.2 .Vx).2.2.trans (by decide)
  · obtain ⟨t, ht, post⟩ := plainvf.fieldOp_ok (fun v w : ℤ => v + w) 0
      (fun c => ((demoStore.vf 1).comp c).F) demoStore (by decide)
    refine ⟨t, ?_, ?_⟩
    · rw [plainvf.opAddAssign_vfield_eq, ht]; rfl
    · exact (post.2.2.2.2 .Vx).2.2.trans (by decide)

/-- C10, amended: a field-operand operator that completes has updated all
three components, each over all its cells in storage order from the operand's
cells; and it completes, `Vx` included in the update, whenever every operand
array has at least as many cells as the array of `self` it is combined with,
whatever the shapes of the operand's `Vy` and `Vz`. -/
theorem C10_all_components_updated [Add real] [Sub real] (op : FieldOperator) (s : Store real)
    (self a : Nat)
    (h : ∀ c, ((s.pvf self).comp c).numElements ≤ (op.operand s a c).numElements) :
    (∃ t, op.run self a s = .ok t) ∧
    ∀ t, op.run self a s = .ok t →
      ∀ c, ((t.pvf self).comp c).data =
        List.zipWith op.upd ((s.pvf self).comp c).data (op.operand s a c).data := by
  have hlen : ∀ c, ((s.pvf self).comp c).data.length ≤ (op.operand s a c).data.length := by
    intro c
    rw [BArray.size_eq, BArray.size_eq]
    exact h c
  obtain ⟨t, ht, -⟩ := plainvf.fieldOp_ok op.upd self (op.operand s a) s hlen
  refine ⟨⟨t, by rw [FieldOperator.run_eq, ht]⟩, ?_⟩
  intro t2 ht2 c
  rw [FieldOperator.run_eq] at ht2
  exact ((plainvf.fieldOp_inv ht2).2.2.2.2.2 c).2.2

/-- C10, amended, on `demoStore`: `P0 = P2`, whose operand has a `Vy` of
another shape, completes with all three components overwritten. -/
theorem C10_all_components_updated_demo :
    (∀ c, ((demoStore.pvf 0).comp c).numElements ≤
      (FieldOperator.assignPlain.operand demoStore 2 c).numElements) ∧
    (∃ t, FieldOperator.assignPlain.run 0 2 demoStore = .ok t) ∧
    ∀ t, FieldOperator.assignPlain.run 0 2 demoStore = .ok t →
      ∀ c, ((t.pvf 0).comp c).data =
        List.zipWith FieldOperator.assignPlain.upd ((demoStore.pvf 0).comp c).data
          (FieldOperator.assignPlain.operand demoStore 2 c).data :=
  ⟨by decide, C10_all_components_updated .assignPlain demoStore 0 2 (by decide)⟩

end Loiret

/-! ## Construction without validation, stagger flags, layout and frame -/

namespace Loiret

variable {real : Type}

/-- A product of extents with a zero-sized axis is zero. -/
theorem TinyVector.product_eq_zero {v : TinyVector} (h : v.x = 0 ∨ v.y = 0 ∨ v.z = 0) :
    v.product = 0 := by
  unfold TinyVector.product
  rcases h with h | h | h <;> simp [h]

/-- C11, counterexample: the constructor applied to `degenerateRef`, whose
`Vx` has a zero-sized first axis and whose components have unrelated shapes,
does produce a field: `Vx` has the shape (0,4,4) and no cell, `Vy` and `Vz`
have three and two cells, and the handle of `Vx` has been built from the
degenerate shape. -/
theorem C11_degenerate_reference_accepted :
    degenerateRef.Vx.fSize.x = 0 ∧
    (plainvf.plainvf scenarioGrid degenerateRef (fun _ _ => 0)).Vx.extent = ⟨0, 4, 4⟩ ∧
    (plainvf.plainvf scenarioGrid degenerateRef (fun _ _ => 0)).Vx.data = [] ∧
    (plainvf.plainvf scenarioGrid degenerateRef (fun _ _ => 0)).Vy.data = [0, 0, 0] ∧
    (plainvf.plainvf scenarioGrid degenerateRef (fun _ _ => 0)).Vz.data = [0, 0] ∧
    (plainvf.plainvf scenarioGrid degenerateRef (fun _ _ => 0)).mpiVxData.subarrays =
      some ⟨⟨0, 4, 4⟩, ⟨-2, 4, 4⟩, ⟨2, 2, 2⟩, true, false⟩ := by
  decide

/-- C11, amended: the constructor validates nothing.  For a reference
component with a zero-sized axis in `fSize` it still produces the component,
with the extent `fSize`, the lower bound `flBound` and no cell at all, and it
still builds that component's handle from the degenerate shape. -/
theorem C11_no_validation (D : grid) (R : vfield real) (fresh : Component → Nat → real)
    (c : Component)
    (h : (R.comp c).fSize.x = 0 ∨ (R.comp c).fSize.y = 0 ∨ (R.comp c).fSize.z = 0) :
    ((plainvf.plainvf D R fresh).comp c).extent = (R.comp c).fSize ∧
    ((plainvf.plainvf D R fresh).comp c).lbound = (R.comp c).flBound ∧
    ((plainvf.plainvf D R fresh).comp c).data = [] ∧
    ((plainvf.plainvf D R fresh).mpiData c).subarrays =
      some ⟨(R.comp c).fSize, (R.comp c).cuBound.addScalar 1, D.padWidths,
        (R.comp c).xStag, (R.comp c).yStag⟩ := by
  have hlen : ((plainvf.plainvf D R fresh).comp c).data.length = 0 := by
    rw [BArray.size_eq]
    cases c <;> exact TinyVector.product_eq_zero h
  refine ⟨?_, ?_, List.length_eq_zero.mp hlen, ?_⟩ <;> cases c <;> rfl

/-- C11, amended, on `degenerateRef`: the component `Vx`, of shape (0,4,4),
is produced with no cell. -/
theorem C11_no_validation_demo :
    ((degenerateRef.comp .Vx).fSize.x = 0 ∨ (degenerateRef.comp .Vx).fSize.y = 0 ∨
      (degenerateRef.comp .Vx).fSize.z = 0) ∧
    ((plainvf.plainvf scenarioGrid degenerateRef (fun _ _ => 0)).comp .Vx).extent =
      (degenerateRef.comp .Vx).fSize ∧
    ((plainvf.plainvf scenarioGrid degenerateRef (fun _ _ => 0)).comp .Vx).lbound =
      (degenerateRef.comp .Vx).flBound ∧
    ((plainvf.plainvf scenarioGrid degenerateRef (fun _ _ => 0)).comp .Vx).data = [] ∧
    ((plainvf.plainvf scenarioGrid degenerateRef (fun _ _ => 0)).mpiData .Vx).subarrays =
      some ⟨(degenerateRef.comp .Vx).fSize, (degenerateRef.comp .Vx).cuBound.addScalar 1,
        scenarioGrid.padWidths, (degenerateRef.comp .Vx).xStag, (degenerateRef.comp .Vx).yStag⟩ :=
  ⟨by decide,
    C11_no_validation scenarioGrid degenerateRef (fun _ _ => 0) .Vx (by decide)⟩

/-- The snapshot form depends on the operand only through its three arrays. -/
theorem plainvf.fieldOp_congr (upd : real → real → real) (self : Nat)
    (src1 src2 : Component → BArray real) (s : Store real) (h : ∀ c, src1 c = src2 c) :
    plainvf.fieldOp upd self src1 s = plainvf.fieldOp upd self src2 s := by
  have e : src1 = src2 := funext h
  rw [e]

/-- C12 (stagger-blind cross arithmetic): for two staggered fields `a1`, `a2`
whose raw arrays agree component by component, whatever their stagger flags,
`P += a1` and `P += a2` have the same outcome (the same returned reference and
the same store), and so have `-=` and `=`; and when the raw arrays have the
shapes of the components of `P`, these outcomes are completed calls, not
rejections. -/
theorem C12_stagger_blind [Add real] [Sub real] (s : Store real) (self a1 a2 : Nat)
    (hF : ∀ c, ((s.vf a1).comp c).F = ((s.vf a2).comp c).F) :
    plainvf.opAddAssign_vfield self a1 s = plainvf.opAddAssign_vfield self a2 s ∧
    plainvf.opSubAssign_vfield self a1 s = plainvf.opSubAssign_vfield self a2 s ∧
    plainvf.opAssign_vfield self a1 s = plainvf.opAssign_vfield self a2 s ∧
    ((∀ c, ((s.vf a1).comp c).F.extent = ((s.pvf self).comp c).extent) →
      (∃ t, plainvf.opAddAssign_vfield self a1 s = .ok (self, t) ∧
        plainvf.opAddAssign_vfield self a2 s = .ok (self, t)) ∧
      (∃ t, plainvf.opSubAssign_vfield self a1 s = .ok (self, t) ∧
        plainvf.opSubAssign_vfield self a2 s = .ok (self, t)) ∧
      (∃ t, plainvf.opAssign_vfield self a1 s = .ok ((), t) ∧
        plainvf.opAssign_vfield self a2 s = .ok ((), t))) := by
  have e1 : plainvf.opAddAssign_vfield self a1 s = plainvf.opAddAssign_vfield self a2 s := by
    rw [plainvf.opAddAssign_vfield_eq, plainvf.opAddAssign_vfield_eq,
      plainvf.fieldOp_congr _ self _ _ s hF]
  have e2 : plainvf.opSubAssign_vfield self a1 s = plainvf.opSubAssign_vfield self a2 s := by
    rw [plainvf.opSubAssign_vfield_eq, plainvf.opSubAssign_vfield_eq,
      plainvf.fieldOp_congr _ self _ _ s hF]
  have e3 : plainvf.opAssign_vfield self a1 s = plainvf.opAssign_vfield self a2 s := by
    rw [plainvf.opAssign_vfield_eq, plainvf.opAssign_vfield_eq,
      plainvf.fieldOp_congr _ self _ _ s hF]
  refine ⟨e1, e2, e3, ?_⟩
  intro hshape
  have hlen : ∀ c, ((s.pvf self).comp c).data.length ≤ (((s.vf a1).comp c).F).data.length := by
    intro c
    rw [BArray.size_eq, BArray.size_eq, hshape c]
  obtain ⟨t1, h1, -⟩ := plainvf.fieldOp_ok (fun v w => v + w) self
    (fun c => ((s.vf a1).comp c).F) s hlen
  obtain ⟨t2, h2, -⟩ := plainvf.fieldOp_ok (fun v w => v - w) self
    (fun c => ((s.vf a1).comp c).F) s hlen
  obtain ⟨t3, h3, -⟩ := plainvf.fieldOp_ok (fun _ w => w) self
    (fun c => ((s.vf a1).comp c).F) s hlen
  have r1 : plainvf.opAddAssign_vfield self a1 s = .ok (self, t1) := by
    rw [plainvf.opAddAssign_vfield_eq, h1]; rfl
  have r2 : plainvf.opSubAssign_vfield self a1 s = .ok (self, t2) := by
    rw [plainvf.opSubAssign_vfield_eq, h2]; rfl
  have r3 : plainvf.opAssign_vfield self a1 s = .ok ((), t3) := by
    rw [plainvf.opAssign_vfield_eq, h3]; rfl
  exact ⟨⟨t1, r1, e1 ▸ r1⟩, ⟨t2, r2, e2 ▸ r2⟩, ⟨t3, r3, e3 ▸ r3⟩⟩

/-- C12 on `flagStore`: the staggered fields at addresses 0 and 1 have the
same raw arrays, of the shapes of the plain field at address 0, and opposite
stagger flags in every component; the three operators treat them alike and
complete. -/
theorem C12_stagger_blind_demo :
    (flagStore.vf 0).Vx.xStag ≠ (flagStore.vf 1).Vx.xStag ∧
    (flagStore.vf 0).Vx.yStag ≠ (flagStore.vf 1).Vx.yStag ∧
    (∀ c, ((flagStore.vf 0).comp c).F = ((flagStore.vf 1).comp c).F) ∧
    (∀ c, ((flagStore.vf 0).comp c).F.extent = ((flagStore.pvf 0).comp c).extent) ∧
    (∃ t, plainvf.opAddAssign_vfield 0 0 flagStore = .ok (0, t) ∧
      plainvf.opAddAssign_vfield 0 1 flagStore = .ok (0, t)) ∧
    (∃ t, plainvf.opSubAssign_vfield 0 0 flagStore = .ok (0, t) ∧
      plainvf.opSubAssign_vfield 0 1 flagStore = .ok (0, t)) ∧
    (∃ t, plainvf.opAssign_vfield 0 0 flagStore = .ok ((), t) ∧
      plainvf.opAssign_vfield 0 1 flagStore = .ok ((), t)) :=
  ⟨by decide, by decide, fun c => by cases c <;> rfl, by decide,
    (C12_stagger_blind flagStore 0 0 1 (fun c => by cases c <;> rfl)).2.2.2 (by decide)⟩

end Loiret

namespace Loiret

variable {real : Type}

/-- The store left by a scalar-operand operator is framed. -/
theorem plainvf.scalarOp_framed (upd : real → real → real) (self : Nat) (a : real)
    (s : Store real) : Store.framed self s (plainvf.scalarOp upd self a s) := by
  refine ⟨rfl, ?_, ?_, ?_, ?_⟩
  · intro q hq
    simp [plainvf.scalarOp, Function.update_noteq hq]
  · simp [plainvf.scalarOp]
  · intro c; cases c <;> simp [plainvf.scalarOp, plainvf.mpiData]
  · intro c
    rw [plainvf.scalarOp_comp]
    exact ⟨rfl, rfl⟩

/-- The store left by a completed field-operand operator is framed. -/
theorem Store.framed_of_fieldUpdated {upd : real → real → real} {self : Nat}
    {src : Component → BArray real} {s t : Store real}
    (h : Store.fieldUpdated upd self src s t) : Store.framed self s t :=
  ⟨h.1, h.2.1, h.2.2.1, h.2.2.2.1, fun c => ⟨(h.2.2.2.2 c).1, (h.2.2.2.2 c).2.1⟩⟩

/-- A framed call keeps the layout of every plain field of the store. -/
theorem Store.framed_layout {self : Nat} {s t : Store real} (h : Store.framed self s t)
    (q : Nat) (c : Component) : ((t.pvf q).comp c).sameLayout ((s.pvf q).comp c) := by
  by_cases hq : q = self
  · subst hq; exact h.2.2.2.2 c
  · rw [h.2.1 q hq]; exact ⟨rfl, rfl⟩

/-- A framed call keeps the field at `self` on the layout of its reference. -/
theorem Store.framed_builtFrom {self : Nat} {s t : Store real} (h : Store.framed self s t)
    {R : vfield real} (hinv : (s.pvf self).builtFrom R) : (t.pvf self).builtFrom R :=
  fun c => ⟨(h.2.2.2.2 c).1.trans (hinv c).1, (h.2.2.2.2 c).2.trans (hinv c).2⟩

/-- C13 (layout invariant): the field the constructor builds from `R` has, in
every component, the extent `R.c.fSize` and the lower bound `R.c.flBound`.
For a field `self` with that layout: each of the six field-operand operators
completes when the operand arrays have the shapes of the components of `self`,
and whenever it completes `self` still has the layout of `R`; so it has after
`*=` and `=` with a scalar; and after any of these calls every array of every
plain field of the store has the extent and the lower bound it had before. -/
theorem C13_layout_invariant [Add real] [Sub real] [Mul real] (D : grid) (R : vfield real)
    (fresh : Component → Nat → real) (op : FieldOperator) (s : Store real) (self a : Nat)
    (k : real) (hinv : (s.pvf self).builtFrom R) :
    (plainvf.plainvf D R fresh).builtFrom R ∧
    ((∀ c, (op.operand s a c).extent = ((s.pvf self).comp c).extent) →
      ∃ t, op.run self a s = .ok t) ∧
    (∀ t, op.run self a s = .ok t →
      (t.pvf self).builtFrom R ∧
        ∀ q c, ((t.pvf q).comp c).sameLayout ((s.pvf q).comp c)) ∧
    (((plainvf.opMulAssign_real self k s).2.pvf self).builtFrom R ∧
      ∀ q c, (((plainvf.opMulAssign_real self k s).2.pvf q).comp c).sameLayout
        ((s.pvf q).comp c)) ∧
    (((plainvf.opAssign_real self k s).2.pvf self).builtFrom R ∧
      ∀ q c, (((plainvf.opAssign_real self k s).2.pvf q).comp c).sameLayout
        ((s.pvf q).comp c)) := by
  refine ⟨?_, ?_, ?_, ?_, ?_⟩
  · intro c; cases c <;> exact ⟨rfl, rfl⟩
  · intro hshape
    have hlen : ∀ c, ((s.pvf self).comp c).data.length ≤ (op.operand s a c).data.length := by
      intro c
      rw [BArray.size_eq, BArray.size_eq, hshape c]
    obtain ⟨t, ht, -⟩ := plainvf.fieldOp_ok op.upd self (op.operand s a) s hlen
    exact ⟨t, by rw [FieldOperator.run_eq, ht]⟩
  · intro t ht
    rw [FieldOperator.run_eq] at ht
    have hf := Store.framed_of_fieldUpdated (plainvf.fieldOp_inv ht).2
    exact ⟨Store.framed_builtFrom hf hinv, Store.framed_layout hf⟩
  · rw [plainvf.opMulAssign_real_eq]
    have hf := plainvf.scalarOp_framed (fun v w => v * w) self k s
    exact ⟨Store.framed_builtFrom hf hinv, Store.framed_layout hf⟩
  · rw [plainvf.opAssign_real_eq]
    have hf := plainvf.scalarOp_framed (fun _ w => w) self k s
    exact ⟨Store.framed_builtFrom hf hinv, Store.framed_layout hf⟩

/-- C13 on `demoStore`: the field at address 0 has the layout of `pairRef`,
the staggered operand at address 0 has its shapes, `P0 += S0` completes, and
the field still has the layout of `pairRef` afterwards, as it has after
`P0 *= 3`. -/
theorem C13_layout_invariant_demo :
    (demoStore.pvf 0).builtFrom pairRef ∧
    (∀ c, (FieldOperator.addStaggered.operand demoStore 0 c).extent =
      ((demoStore.pvf 0).comp c).extent) ∧
    (∃ t, FieldOperator.addStaggered.run 0 0 demoStore = .ok t ∧
      (t.pvf 0).builtFrom pairRef) ∧
    ((plainvf.opMulAssign_real 0 3 demoStore).2.pvf 0).builtFrom pairRef := by
  have h := C13_layout_invariant scenarioGrid pairRef (fun _ _ => 0) .addStaggered demoStore 0 0 3
    (by decide)
  obtain ⟨t, ht⟩ := h.2.1 (by decide)
  exact ⟨by decide, by decide, ⟨t, ht, (h.2.2.1 t ht).1⟩, h.2.2.2.1.1⟩

/-- C14 (frame of the operators): a call of any of the six field-operand
operators that completes, and every call of `*=` and `=` with a scalar, leaves
a store that differs from the store before the call only in the cells of the
three arrays of `self`: every staggered field and every other plain field (the
operand included, when it is not `self`) is unchanged, and `self` keeps its
grid reference, its three handles and the layout of its arrays.  The
field-operand operators do complete when every operand array has at least as
many cells as the array it is combined with. -/
theorem C14_operator_frame [Add real] [Sub real] [Mul real] (op : FieldOperator)
    (s : Store real) (self a : Nat) (k : real) :
    (∀ t, op.run self a s = .ok t → Store.framed self s t) ∧
    Store.framed self s (plainvf.opMulAssign_real self k s).2 ∧
    Store.framed self s (plainvf.opAssign_real self k s).2 ∧
    ((∀ c, ((s.pvf self).comp c).numElements ≤ (op.operand s a c).numElements) →
      ∃ t, op.run self a s = .ok t) := by
  refine ⟨?_, ?_, ?_, ?_⟩
  · intro t ht
    rw [FieldOperator.run_eq] at ht
    exact Store.framed_of_fieldUpdated (plainvf.fieldOp_inv ht).2
  · rw [plainvf.opMulAssign_real_eq]
    exact plainvf.scalarOp_framed _ self k s
  · rw [plainvf.opAssign_real_eq]
    exact plainvf.scalarOp_framed _ self k s
  · intro h
    have hlen : ∀ c, ((s.pvf self).comp c).data.length ≤ (op.operand s a c).data.length := by
      intro c
      rw [BArray.size_eq, BArray.size_eq]
      exact h c
    obtain ⟨t, ht, -⟩ := plainvf.fieldOp_ok op.upd self (op.operand s a) s hlen
    exact ⟨t, by rw [FieldOperator.run_eq, ht]⟩

/-- C14 on `demoStore`: `P0 -= P1` completes; the operand at address 1 and
the handle of `Vx` of the field at address 0 are what they were. -/
theorem C14_operator_frame_demo :
    ∃ t, FieldOperator.subPlain.run 0 1 demoStore = .ok t ∧ Store.framed 0 demoStore t ∧
      t.pvf 1 = demoStore.pvf 1 ∧ (t.pvf 0).mpiVxData = (demoStore.pvf 0).mpiVxData := by
  have h := C14_operator_frame .subPlain demoStore 0 1 (0 : ℤ)
  obtain ⟨t, ht⟩ := h.2.2.2 (by decide)
  have hf := h.1 t ht
  exact ⟨t, ht, hf, hf.2.1 1 (by decide), hf.2.2.2.1 .Vx⟩

/-- C15 (halo-handle construction inputs): the constructor gives the field one
handle per component; the handle of component `c` is constructed on the array
of `c` with the rank data of `D`, and its `createSubarrays` call receives
`R.c.fSize`, `R.c.cuBound + 1`, the padding widths of `D` and the two stagger
flags of that same component `R.c`. -/
theorem C15_handle_inputs (D : grid) (R : vfield real) (fresh : Component → Nat → real)
    (c : Component) :
    (plainvf.plainvf D R fresh).mpiData c =
      ⟨c, D.rankData,
        some ⟨(R.comp c).fSize,
          ⟨(R.comp c).cuBound.x + 1, (R.comp c).cuBound.y + 1, (R.comp c).cuBound.z + 1⟩,
          D.padWidths, (R.comp c).xStag, (R.comp c).yStag⟩⟩ := by
  cases c <;> rfl

end Loiret

/-! ## Two operators in a row -/

namespace Loiret

variable {real : Type}

theorem plainvf.eq_of_members {P Q : Loiret.plainvf real} (hg : P.gridData = Q.gridData)
    (hc : ∀ c, P.comp c = Q.comp c) (hm : ∀ c, P.mpiData c = Q.mpiData c) : P = Q := by
  have hx := hc .Vx
  have hy := hc .Vy
  have hz := hc .Vz
  have mx := hm .Vx
  have my := hm .Vy
  have mz := hm .Vz
  cases P; cases Q
  simp only [plainvf.comp, plainvf.mpiData] at hx hy hz mx my mz hg
  simp only [plainvf.mk.injEq]
  exact ⟨hg, hx, hy, hz, mx, my, mz⟩

/-- Two cell updates in a row with the same operand cells are one update. -/
theorem zipWith_zipWith_same (f g : real → real → real) (xs ys : List real) :
    List.zipWith g (List.zipWith f xs ys) ys = List.zipWith (fun p q => g (f p q) q) xs ys := by
  induction xs generalizing ys with
  | nil => simp
  | cons x xs ih =>
    cases ys with
    | nil => simp
    | cons y ys => simp only [List.zipWith_cons_cons, ih ys]

/-- A cell update that returns the old cell changes nothing, when the operand
is at least as long. -/
theorem zipWith_left_of_le (xs ys : List real) (h : xs.length ≤ ys.length) :
    List.zipWith (fun p _ => p) xs ys = xs := by
  induction xs generalizing ys with
  | nil => simp
  | cons x xs ih =>
    cases ys with
    | nil => simp at h
    | cons y ys =>
      simp only [List.zipWith_cons_cons, List.length_cons, Nat.add_le_add_iff_right] at h ⊢
      rw [ih ys h]

/-- A cell update that returns a constant leaves copies of the constant, when
the operand is at least as long. -/
theorem zipWith_const_of_le (z : real) (xs ys : List real) (h : xs.length ≤ ys.length) :
    List.zipWith (fun _ _ => z) xs ys = List.replicate xs.length z := by
  induction xs generalizing ys with
  | nil => simp
  | cons x xs ih =>
    cases ys with
    | nil => simp at h
    | cons y ys =>
      simp only [List.zipWith_cons_cons, List.length_cons, Nat.add_le_add_iff_right,
        List.replicate_succ] at h ⊢
      rw [ih ys h]

/-- Reading a cell of an elementwise result by storage position: at a valid
index of the destination the new cell is the update of the old cell with the
operand's cell at the same storage position. -/
theorem BArray.get?_zipWith_pos {upd : real → real → real} {dst r : BArray real}
    {src : List real} (he : r.extent = dst.extent) (hl : r.lbound = dst.lbound)
    (hd : r.data = List.zipWith upd dst.data src) (hlen : dst.data.length ≤ src.length)
    (i : TinyVector) (hi : dst.inRange i) :
    ∃ p q, dst.get? i = some p ∧ src[dst.offset i]? = some q ∧ r.get? i = some (upd p q) := by
  obtain ⟨p, hp, hp2⟩ := dst.get?_of_inRange i hi
  have hlt : dst.offset i < src.length := lt_of_lt_of_le (dst.offset_lt i hi) hlen
  refine ⟨p, src[dst.offset i], hp, List.getElem?_eq_getElem hlt, ?_⟩
  have hri : r.inRange i := (@BArray.inRange_congr _ r dst ⟨he, hl⟩ i).2 hi
  have hro : r.offset i = dst.offset i := @BArray.offset_congr _ r dst ⟨he, hl⟩ i
  unfold BArray.get?
  rw [if_pos hri, hd, List.getElem?_zipWith, hro, hp2, List.getElem?_eq_getElem hlt]

/-- A second field-operand operator run after a first one that completed, on
operand arrays with the same cells, completes too, and the two together have
the effect of one operator whose cell update is the second after the first. -/
theorem plainvf.fieldOp_twice (upd1 upd2 : real → real → real) (self : Nat)
    (src1 src2 : Component → BArray real) (s t1 : Store real)
    (h1 : plainvf.fieldOp upd1 self src1 s = .ok t1)
    (hsrc : ∀ c, (src2 c).data = (src1 c).data) :
    ∃ t2, plainvf.fieldOp upd2 self src2 t1 = .ok t2 ∧
      Store.fieldUpdated (fun p q => upd2 (upd1 p q) q) self src1 s t2 := by
  obtain ⟨hlen, post1⟩ := plainvf.fieldOp_inv h1
  have hlen2 : ∀ c, ((t1.pvf self).comp c).data.length ≤ (src2 c).data.length := by
    intro c
    rw [(post1.2.2.2.2 c).2.2, List.length_zipWith, hsrc c]
    exact Nat.min_le_right _ _
  obtain ⟨t2, h2, post2⟩ := plainvf.fieldOp_ok upd2 self src2 t1 hlen2
  refine ⟨t2, h2, post2.1.trans post1.1, ?_, post2.2.2.1.trans post1.2.2.1, ?_, ?_⟩
  · intro q hq
    exact (post2.2.1 q hq).trans (post1.2.1 q hq)
  · intro c
    exact (post2.2.2.2.1 c).trans (post1.2.2.2.1 c)
  · intro c
    refine ⟨(post2.2.2.2.2 c).1.trans (post1.2.2.2.2 c).1,
      (post2.2.2.2.2 c).2.1.trans (post1.2.2.2.2 c).2.1, ?_⟩
    rw [(post2.2.2.2.2 c).2.2, (post1.2.2.2.2 c).2.2, hsrc c]
    exact zipWith_zipWith_same upd1 upd2 _ _

/-- Two field-operand operators in a row on a plain operand `B` other than the
updated field `A`: when every array of `B` has at least as many cells as the
array of `A` it is combined with, both complete, `B` is untouched, and the two
together have the effect of one operator. -/
theorem plainvf.twice_plainvf (upd1 upd2 : real → real → real) (A B : Nat) (s : Store real)
    (hne : A ≠ B)
    (hlen : ∀ c, ((s.pvf A).comp c).data.length ≤ ((s.pvf B).comp c).data.length) :
    ∃ t1 t2, plainvf.fieldOp upd1 A (s.pvf B).comp s = .ok t1 ∧
      plainvf.fieldOp upd2 A (t1.pvf B).comp t1 = .ok t2 ∧ t1.pvf B = s.pvf B ∧
      Store.fieldUpdated (fun p q => upd2 (upd1 p q) q) A (s.pvf B).comp s t2 := by
  obtain ⟨t1, h1, post1⟩ := plainvf.fieldOp_ok upd1 A (s.pvf B).comp s hlen
  have hB1 : t1.pvf B = s.pvf B := post1.2.1 B (Ne.symm hne)
  obtain ⟨t2, h2, post2⟩ := plainvf.fieldOp_twice upd1 upd2 A (s.pvf B).comp (t1.pvf B).comp
    s t1 h1 (fun c => by rw [hB1])
  exact ⟨t1, t2, h1, h2, hB1, post2⟩

/-- Two field-operand operators in a row on a staggered operand `S`: when
every raw array of `S` has at least as many cells as the array of `A` it is
combined with, both complete and the two together have the effect of one
operator. -/
theorem plainvf.twice_vfield (upd1 upd2 : real → real → real) (A S : Nat) (s : Store real)
    (hlen : ∀ c, ((s.pvf A).comp c).data.length ≤ (((s.vf S).comp c).F).data.length) :
    ∃ t1 t2, plainvf.fieldOp upd1 A (fun c => ((s.vf S).comp c).F) s = .ok t1 ∧
      plainvf.fieldOp upd2 A (fun c => ((t1.vf S).comp c).F) t1 = .ok t2 ∧
      Store.fieldUpdated (fun p q => upd2 (upd1 p q) q) A (fun c => ((s.vf S).comp c).F) s t2 := by
  obtain ⟨t1, h1, post1⟩ := plainvf.fieldOp_ok upd1 A (fun c => ((s.vf S).comp c).F) s hlen
  obtain ⟨t2, h2, post2⟩ := plainvf.fieldOp_twice upd1 upd2 A (fun c => ((s.vf S).comp c).F)
    (fun c => ((t1.vf S).comp c).F) s t1 h1 (fun c => by rw [post1.1])
  exact ⟨t1, t2, h1, h2, post2⟩

/-- A field whose arrays all got back their old cells is the old field. -/
theorem plainvf.eq_of_fieldUpdated_left {upd : real → real → real} {self : Nat}
    {src : Component → BArray real} {s t : Store real}
    (h : Store.fieldUpdated upd self src s t)
    (hlen : ∀ c, ((s.pvf self).comp c).data.length ≤ (src c).data.length)
    (hupd : ∀ p q, upd p q = p) : t.pvf self = s.pvf self := by
  apply plainvf.eq_of_members h.2.2.1
  · intro c
    apply BArray.eq_of_fields (h.2.2.2.2 c).1 (h.2.2.2.2 c).2.1
    rw [(h.2.2.2.2 c).2.2]
    have e : upd = fun p _ => p := funext fun p => funext fun q => hupd p q
    rw [e]
    exact zipWith_left_of_le _ _ (hlen c)
  · exact h.2.2.2.1

/-- Known values of the `double` format, as the model computes them: the
doubles nearest to 1/10 and 1/3; the largest finite double, which absorbs a
quarter of its last place and overflows to `+inf` on half of it; half of the
smallest subnormal, which rounds to 0, and half of three times it, which
rounds to twice it; and `(3 * 0.1) * 0.7` against `3 * (0.1 * 0.7)`. -/
theorem Fp.binary64_samples :
    Fp.round binary64 (mkRat 1 10) = Fp.ofScaled 3602879701896397 (-55) ∧
    Fp.round binary64 (mkRat 1 3) = Fp.ofScaled 6004799503160661 (-54) ∧
    (Fp.ofScaled (2 ^ 53 - 1) 971 : Fp binary64).inFormat ∧
    (Fp.ofScaled (2 ^ 53 - 1) 971 + Fp.ofScaled 1 969 : Fp binary64) =
      Fp.ofScaled (2 ^ 53 - 1) 971 ∧
    (Fp.ofScaled (2 ^ 53 - 1) 971 + Fp.ofScaled 1 970 : Fp binary64) = Fp.inf false ∧
    (Fp.ofScaled 1 (-1074) * Fp.ofScaled 1 (-1) : Fp binary64) = Fp.finite 0 ∧
    (Fp.ofScaled 3 (-1074) * Fp.ofScaled 1 (-1) : Fp binary64) = Fp.ofScaled 1 (-1073) ∧
    ((Fp.finite 3 * Fp.round binary64 (mkRat 1 10)) * Fp.round binary64 (mkRat 7 10) :
      Fp binary64) = Fp.ofScaled 3783023686991217 (-54) ∧
    (Fp.finite 3 * (Fp.round binary64 (mkRat 1 10) * Fp.round binary64 (mkRat 7 10)) :
      Fp binary64) = Fp.ofScaled 236438980436951 (-50) := by
  decide

/-- C7, counterexample: in `fpStore` the fields at addresses 0 and 1 have the
same layout and `double` cells, `Vx = [1, 2^1023]` and `Vx = [2^53, 2^1023]`.
`P0 += P1` followed by `P0 -= P1` completes and leaves `Vx = [0, +inf]`: the
first cell has lost its value to rounding (`1 + 2^53` rounds to `2^53`), the
second to overflow, and an infinity is within no tolerance of `2^1023`. -/
theorem C7_round_trip_not_restoring :
    (fpStore.pvf 0).builtFrom fpRef ∧ (fpStore.pvf 1).builtFrom fpRef ∧
    (fpStore.pvf 0).Vx.data = [Fp.finite 1, Fp.ofScaled 1 1023] ∧
    (fpStore.pvf 1).Vx.data = [Fp.ofScaled 1 53, Fp.ofScaled 1 1023] ∧
    (∀ x ∈ (fpStore.pvf 0).Vx.data ++ (fpStore.pvf 1).Vx.data, x.inFormat) ∧
    ∃ t1 t2, plainvf.opAddAssign_plainvf 0 1 fpStore = .ok (0, t1) ∧
      plainvf.opSubAssign_plainvf 0 1 t1 = .ok (0, t2) ∧
      (t2.pvf 0).Vx.data = [Fp.finite 0, Fp.inf false] := by
  refine ⟨by decide, by decide, by decide, by decide, by decide, ?_⟩
  obtain ⟨t1, t2, h1, h2, -, post⟩ := plainvf.twice_plainvf
    (fun v w : Fp binary64 => v + w) (fun v w => v - w) 0 1 fpStore (by decide) (by decide)
  refine ⟨t1, t2, ?_, ?_, ?_⟩
  · rw [plainvf.opAddAssign_plainvf_eq, h1]; rfl
  · rw [plainvf.opSubAssign_plainvf_eq, h2]; rfl
  · exact (post.2.2.2.2 .Vx).2.2.trans (by decide)

/-- C7, amended: for two distinct plain fields `A` and `B` with the layout of
the same reference `R`, `A += B` completes and `A -= B` on the result
completes; `B` is unchanged by either, and `A` keeps its grid reference, its
handles and its layout; at every valid index `i` of every component `c`,
ghost cells included, the cell of `A` then holds `(p + q) - q`, where `p` and
`q` are the old cells of `A` and `B` at `i` and the two operations are those
of the scalar type, no law assumed of them; `A` is exactly the field it
was whenever `(p + q) - q = p` for all scalars. -/
theorem C7_additive_inverse [Add real] [Sub real] (s : Store real) (A B : Nat) (R : vfield real)
    (c : Component) (i : TinyVector)
    (hne : A ≠ B) (hA : (s.pvf A).builtFrom R) (hB : (s.pvf B).builtFrom R)
    (hi : ((s.pvf A).comp c).inRange i) :
    ∃ t1 t2, plainvf.opAddAssign_plainvf A B s = .ok (A, t1) ∧
      plainvf.opSubAssign_plainvf A B t1 = .ok (A, t2) ∧
      t1.pvf B = s.pvf B ∧ t2.pvf B = s.pvf B ∧ Store.framed A s t2 ∧
      (∃ p q, ((s.pvf A).comp c).get? i = some p ∧ ((s.pvf B).comp c).get? i = some q ∧
        ((t2.pvf A).comp c).get? i = some ((p + q) - q)) ∧
      ((∀ p q : real, (p + q) - q = p) → t2.pvf A = s.pvf A) := by
  have hlay : ∀ c, ((s.pvf A).comp c).sameLayout ((s.pvf B).comp c) := fun c =>
    ⟨(hA c).1.trans (hB c).1.symm, (hA c).2.trans (hB c).2.symm⟩
  have hlen : ∀ c, ((s.pvf A).comp c).data.length ≤ ((s.pvf B).comp c).data.length := fun c =>
    le_of_eq (BArray.length_eq_of_sameLayout (hlay c))
  obtain ⟨t1, t2, h1, h2, hB1, post⟩ := plainvf.twice_plainvf
    (fun v w : real => v + w) (fun v w => v - w) A B s hne hlen
  refine ⟨t1, t2, ?_, ?_, hB1, post.2.1 B (Ne.symm hne), Store.framed_of_fieldUpdated post,
    ?_, ?_⟩
  · rw [plainvf.opAddAssign_plainvf_eq, h1]; rfl
  · rw [plainvf.opSubAssign_plainvf_eq, h2]; rfl
  · exact BArray.get?_zipWith (post.2.2.2.2 c).1 (post.2.2.2.2 c).2.1 (post.2.2.2.2 c).2.2
      (hlay c) i hi
  · intro hlaw
    exact plainvf.eq_of_fieldUpdated_left post hlen hlaw

/-- C7, amended, on `fpStore`: for the fields at addresses 0 and 1 and the
ghost cell (-1,0,0) of `Vx`, where they hold 1 and `2^53`. -/
theorem C7_additive_inverse_demo :
    (0 : Nat) ≠ 1 ∧ (fpStore.pvf 0).builtFrom fpRef ∧ (fpStore.pvf 1).builtFrom fpRef ∧
    ((fpStore.pvf 0).comp .Vx).inRange ⟨-1, 0, 0⟩ ∧
    ∃ t1 t2, plainvf.opAddAssign_plainvf 0 1 fpStore = .ok (0, t1) ∧
      plainvf.opSubAssign_plainvf 0 1 t1 = .ok (0, t2) ∧
      t1.pvf 1 = fpStore.pvf 1 ∧ t2.pvf 1 = fpStore.pvf 1 ∧ Store.framed 0 fpStore t2 ∧
      (∃ p q, ((fpStore.pvf 0).comp .Vx).get? ⟨-1, 0, 0⟩ = some p ∧
        ((fpStore.pvf 1).comp .Vx).get? ⟨-1, 0, 0⟩ = some q ∧
        ((t2.pvf 0).comp .Vx).get? ⟨-1, 0, 0⟩ = some ((p + q) - q)) ∧
      ((∀ p q : Fp binary64, (p + q) - q = p) → t2.pvf 0 = fpStore.pvf 0) :=
  ⟨by decide, by decide, by decide, by decide,
    C7_additive_inverse fpStore 0 1 fpRef .Vx ⟨-1, 0, 0⟩ (by decide) (by decide) (by decide)
      (by decide)⟩

/-- C8, counterexample: in `fpStore` the field at address 0 holds the `double`
cells `Vx = [1, 2^1023]` and `Vy = [3, +inf]`.  With `k1 = 2` and `k2 = 1/2`,
`A *= k1; A *= k2` leaves `Vx = [1, +inf]` (the product `2^1024` overflows)
while `A *= (k1 * k2)` leaves `Vx = [1, 2^1023]`; with `k1` and `k2` the
doubles nearest to 0.1 and 0.7, the two ways leave different cells in `Vy`
(the 3 is rounded differently). -/
theorem C8_two_steps_differ :
    (fpStore.pvf 0).Vx.data = [Fp.finite 1, Fp.ofScaled 1 1023] ∧
    (∀ x ∈ (fpStore.pvf 0).Vx.data ++ (fpStore.pvf 0).Vy.data, x.inFormat) ∧
    (Fp.ofScaled 1 1 : Fp binary64).inFormat ∧ (Fp.ofScaled 1 (-1) : Fp binary64).inFormat ∧
    ((plainvf.opMulAssign_real 0 (Fp.ofScaled 1 (-1))
      (plainvf.opMulAssign_real 0 (Fp.ofScaled 1 1) fpStore).2).2.pvf 0).Vx.data =
        [Fp.finite 1, Fp.inf false] ∧
    ((plainvf.opMulAssign_real 0 (Fp.ofScaled 1 1 * Fp.ofScaled 1 (-1))
      fpStore).2.pvf 0).Vx.data = [Fp.finite 1, Fp.ofScaled 1 1023] ∧
    (fpStore.pvf 0).Vy.data = [Fp.finite 3, Fp.inf false] ∧
    ((plainvf.opMulAssign_real 0 (Fp.round binary64 (mkRat 7 10))
      (plainvf.opMulAssign_real 0 (Fp.round binary64 (mkRat 1 10)) fpStore).2).2.pvf 0).Vy.data ≠
    ((plainvf.opMulAssign_real 0
      (Fp.round binary64 (mkRat 1 10) * Fp.round binary64 (mkRat 7 10)) fpStore).2.pvf 0).Vy.data := by
  decide

/-- C8, amended: `A *= k1` followed by `A *= k2`, and `A *= (k1 * k2)` applied
once to the original, both return the address of `A`; at every valid index
`i` of every component `c` the first leaves `(p * k1) * k2` and the second
`p * (k1 * k2)`, `p` being the old cell and the products those of the scalar
type, no law assumed of them; the two leave the same store, hence the same
field, whenever `(v * k1) * k2 = v * (k1 * k2)` for all scalars `v`. -/
theorem C8_scale_linearity [Mul real] (s : Store real) (self : Nat) (k1 k2 : real)
    (c : Component) (i : TinyVector) (hi : ((s.pvf self).comp c).inRange i) :
    (plainvf.opMulAssign_real self k2 (plainvf.opMulAssign_real self k1 s).2).1 = self ∧
    (plainvf.opMulAssign_real self (k1 * k2) s).1 = self ∧
    (∃ p, ((s.pvf self).comp c).get? i = some p ∧
      (((plainvf.opMulAssign_real self k2 (plainvf.opMulAssign_real self k1 s).2).2.pvf
        self).comp c).get? i = some ((p * k1) * k2) ∧
      (((plainvf.opMulAssign_real self (k1 * k2) s).2.pvf self).comp c).get? i =
        some (p * (k1 * k2))) ∧
    ((∀ v : real, (v * k1) * k2 = v * (k1 * k2)) →
      plainvf.opMulAssign_real self k2 (plainvf.opMulAssign_real self k1 s).2 =
        plainvf.opMulAssign_real self (k1 * k2) s) := by
  refine ⟨rfl, rfl, ?_, ?_⟩
  · simp only [plainvf.opMulAssign_real_eq, plainvf.scalarOp_comp]
    obtain ⟨p, hp, h1⟩ :=
      BArray.get?_evaluateScalar (fun v w => v * w) ((s.pvf self).comp c) k1 i hi
    obtain ⟨p1, hp1, h2⟩ := BArray.get?_evaluateScalar (fun v w => v * w)
      (BArray.evaluateScalar (fun v w => v * w) ((s.pvf self).comp c) k1) k2 i hi
    obtain ⟨p3, hp3, h3⟩ :=
      BArray.get?_evaluateScalar (fun v w => v * w) ((s.pvf self).comp c) (k1 * k2) i hi
    have e1 : p1 = p * k1 := Option.some.inj (hp1.symm.trans h1)
    have e3 : p3 = p := Option.some.inj (hp3.symm.trans hp)
    subst e1 e3
    exact ⟨p3, hp, h2, h3⟩
  · intro hlaw
    simp only [plainvf.opMulAssign_real_eq]
    congr 1
    unfold plainvf.scalarOp
    simp only [Function.update_same, Function.update_idem]
    congr 2
    simp only [BArray.evaluateScalar, List.map_map, Function.comp_def, hlaw]

/-- C8, amended, on `fpStore`: for the field at address 0, the scalars 2 and
1/2 and the last cell (0,0,0) of `Vx`, which holds `2^1023`. -/
theorem C8_scale_linearity_demo :
    ((fpStore.pvf 0).comp .Vx).inRange ⟨0, 0, 0⟩ ∧
    (plainvf.opMulAssign_real 0 (Fp.ofScaled 1 (-1))
      (plainvf.opMulAssign_real 0 (Fp.ofScaled 1 1) fpStore).2).1 = 0 ∧
    (plainvf.opMulAssign_real 0 (Fp.ofScaled 1 1 * Fp.ofScaled 1 (-1)) fpStore).1 = 0 ∧
    (∃ p, ((fpStore.pvf 0).comp .Vx).get? ⟨0, 0, 0⟩ = some p ∧
      (((plainvf.opMulAssign_real 0 (Fp.ofScaled 1 (-1))
        (plainvf.opMulAssign_real 0 (Fp.ofScaled 1 1) fpStore).2).2.pvf 0).comp .Vx).get?
          ⟨0, 0, 0⟩ = some ((p * Fp.ofScaled 1 1) * Fp.ofScaled 1 (-1)) ∧
      (((plainvf.opMulAssign_real 0 (Fp.ofScaled 1 1 * Fp.ofScaled 1 (-1)) fpStore).2.pvf
        0).comp .Vx).get? ⟨0, 0, 0⟩ = some (p * (Fp.ofScaled 1 1 * Fp.ofScaled 1 (-1)))) ∧
    ((∀ v : Fp binary64, (v * Fp.ofScaled 1 1) * Fp.ofScaled 1 (-1) =
        v * (Fp.ofScaled 1 1 * Fp.ofScaled 1 (-1))) →
      plainvf.opMulAssign_real 0 (Fp.ofScaled 1 (-1))
          (plainvf.opMulAssign_real 0 (Fp.ofScaled 1 1) fpStore).2 =
        plainvf.opMulAssign_real 0 (Fp.ofScaled 1 1 * Fp.ofScaled 1 (-1)) fpStore) :=
  ⟨by decide,
    C8_scale_linearity fpStore 0 (Fp.ofScaled 1 1) (Fp.ofScaled 1 (-1)) .Vx ⟨0, 0, 0⟩
      (by decide)⟩

end Loiret

/-! ## Self-aliased and staggered operands -/

namespace Loiret

variable {real : Type}

/-- C15 on the scenario of the specification: the handle of `Vy` is built on
`Vy` from the shape (4,8,4), the bound (4,4,4), the padding (2,2,2) and the
flags of `Vy`, which differ from those of `Vx`. -/
theorem C15_handle_inputs_scenario :
    (plainvf.plainvf scenarioGrid scenarioRef (fun _ _ => 0)).mpiData .Vy =
      ⟨.Vy, ⟨0, []⟩, some ⟨⟨4, 8, 4⟩, ⟨4, 4, 4⟩, ⟨2, 2, 2⟩, false, true⟩⟩ :=
  C15_handle_inputs scenarioGrid scenarioRef (fun _ _ => 0) .Vy

/-- An elementwise update of an array with itself is a scalar update, when
the two cell updates agree on equal arguments. -/
theorem BArray.evaluate_self (upd upd2 : real → real → real) (a : real) (d : BArray real)
    (h : ∀ v, upd v v = upd2 v a) :
    BArray.evaluate upd d d = .ok (BArray.evaluateScalar upd2 d a) := by
  unfold BArray.evaluate
  rw [dif_pos (le_refl _)]
  congr 1
  apply BArray.eq_of_fields
  · rfl
  · rfl
  show List.zipWith upd d.data d.data = List.map (fun v => upd2 v a) d.data
  rw [List.zipWith_same]
  exact List.map_congr_left (fun v _ => h v)

/-- A field-operand operator whose operand is the field itself acts as a
scalar-operand operator, when the two cell updates agree on equal arguments. -/
theorem plainvf.fieldOp_self (upd upd2 : real → real → real) (a : real) (self : Nat)
    (s : Store real) (h : ∀ v, upd v v = upd2 v a) :
    plainvf.fieldOp upd self (s.pvf self).comp s = .ok (plainvf.scalarOp upd2 self a s) := by
  unfold plainvf.fieldOp
  simp only [plainvf.comp]
  rw [BArray.evaluate_self upd upd2 a _ h, BArray.evaluate_self upd upd2 a _ h,
    BArray.evaluate_self upd upd2 a _ h]
  rfl

/-- A valid index of an array whose storage is copies of `v` holds `v`. -/
theorem BArray.get?_of_replicate (A : BArray real) (v : real) (n : Nat)
    (hd : A.data = List.replicate n v) (i : TinyVector) (hi : A.inRange i) :
    A.get? i = some v := by
  obtain ⟨w, hw, hw2⟩ := A.get?_of_inRange i hi
  rw [hd, List.getElem?_replicate] at hw2
  split at hw2
  · rw [hw, ← Option.some.inj hw2]
  · cases hw2

/-- In every floating-point format, `x + x` and `x * 2` are the same datum:
the exact results are equal, so are their roundings, and an infinity or a NaN
is reproduced by both. -/
theorem Fp.add_self_eq_mul_two {fmt : FloatFormat} (x : Fp fmt) : x + x = x * Fp.finite 2 := by
  cases x with
  | finite q =>
    show Fp.round fmt _ = Fp.round fmt _
    congr 1
    rw [← Rat.add_def', ← Rat.normalize_eq_mkRat (Nat.mul_ne_zero q.den_nz (by decide)),
      ← Rat.mul_def]
    exact (mul_two q).symm
  | inf s => cases s <;> rfl
  | nan => rfl

/-- In every floating-point format, `x - x` is 0 for a finite `x` and NaN for
an infinity or a NaN. -/
theorem Fp.sub_self_eq {fmt : FloatFormat} (x : Fp fmt) :
    x - x = if x.isFinite then Fp.finite 0 else Fp.nan := by
  cases x with
  | finite q =>
    show Fp.round fmt (mkRat (q.num * q.den - q.num * q.den) (q.den * q.den)) = Fp.finite 0
    rw [sub_self, Rat.zero_mkRat]
    rfl
  | inf s => cases s <;> rfl
  | nan => rfl

/-- C16, counterexample: in `fpStore` the field at address 0 holds the
`double` cells `Vy = [3, +inf]`; `P0 -= P0` completes and leaves
`Vy = [0, NaN]`, not zeros. -/
theorem C16_self_subtraction_not_zero :
    (fpStore.pvf 0).Vy.data = [Fp.finite 3, Fp.inf false] ∧
    (∀ x ∈ (fpStore.pvf 0).Vy.data, x.inFormat) ∧
    ∃ t, plainvf.opSubAssign_plainvf 0 0 fpStore = .ok (0, t) ∧
      (t.pvf 0).Vy.data = [Fp.finite 0, Fp.nan] := by
  refine ⟨by decide, by decide, ?_⟩
  obtain ⟨t, ht, post⟩ := plainvf.fieldOp_ok (fun v w : Fp binary64 => v - w) 0
    (fpStore.pvf 0).comp fpStore (fun c => le_refl _)
  refine ⟨t, ?_, ?_⟩
  · rw [plainvf.opSubAssign_plainvf_eq, ht]; rfl
  · exact (post.2.2.2.2 .Vy).2.2.trans (by decide)

/-- C16, amended: for a plain field `A` whose cells are binary floating-point
numbers of any format, `A += A` completes and leaves exactly the reference
and the store that `A *= 2` leaves; `A -= A` completes, returns the address
of `A`, and at every valid index of every component, ghost cells included,
leaves 0 where the cell held a finite value and NaN where it held an
infinity or a NaN. -/
theorem C16_self_aliased (fmt : FloatFormat) (s : Store (Fp fmt)) (A : Nat) (c : Component)
    (i : TinyVector) (hi : ((s.pvf A).comp c).inRange i) :
    plainvf.opAddAssign_plainvf A A s = .ok (plainvf.opMulAssign_real A (Fp.finite 2) s) ∧
    ∃ t p, plainvf.opSubAssign_plainvf A A s = .ok (A, t) ∧
      ((s.pvf A).comp c).get? i = some p ∧
      ((t.pvf A).comp c).get? i = some (if p.isFinite then Fp.finite 0 else Fp.nan) := by
  constructor
  · rw [plainvf.opAddAssign_plainvf_eq, plainvf.opMulAssign_real_eq,
      plainvf.fieldOp_self (fun v w => v + w) (fun v w => v * w) (Fp.finite 2) A s
        Fp.add_self_eq_mul_two]
    rfl
  · have h := plainvf.fieldOp_self (fun v w : Fp fmt => v - w)
      (fun v _ => if v.isFinite then Fp.finite 0 else Fp.nan) Fp.nan A s Fp.sub_self_eq
    obtain ⟨p, hp, hr⟩ := BArray.get?_evaluateScalar
      (fun (v : Fp fmt) _ => if v.isFinite then Fp.finite 0 else Fp.nan)
      ((s.pvf A).comp c) Fp.nan i hi
    refine ⟨plainvf.scalarOp (fun v _ => if v.isFinite then Fp.finite 0 else Fp.nan) A Fp.nan s,
      p, ?_, hp, ?_⟩
    · rw [plainvf.opSubAssign_plainvf_eq, h]; rfl
    · rw [plainvf.scalarOp_comp]
      exact hr

/-- C16, amended, on `fpStore`: for the field at address 0 and the cell
(0,0,0) of `Vy`, which holds `+inf`. -/
theorem C16_self_aliased_demo :
    ((fpStore.pvf 0).comp .Vy).inRange ⟨0, 0, 0⟩ ∧
    ((fpStore.pvf 0).comp .Vy).get? ⟨0, 0, 0⟩ = some (Fp.inf false) ∧
    plainvf.opAddAssign_plainvf 0 0 fpStore =
      .ok (plainvf.opMulAssign_real 0 (Fp.finite 2) fpStore) ∧
    ∃ t p, plainvf.opSubAssign_plainvf 0 0 fpStore = .ok (0, t) ∧
      ((fpStore.pvf 0).comp .Vy).get? ⟨0, 0, 0⟩ = some p ∧
      ((t.pvf 0).comp .Vy).get? ⟨0, 0, 0⟩ = some (if p.isFinite then Fp.finite 0 else Fp.nan) :=
  ⟨by decide, by decide, C16_self_aliased binary64 fpStore 0 .Vy ⟨0, 0, 0⟩ (by decide)⟩

/-- C17, counterexample: in `fpStore` the plain field at address 0 holds the
`double` cells `Vx = [1, 2^1023]` and the staggered field at address 0, of
the same shapes, the raw cells `Vx.F = [2^53, 1]` and `Vy.F = [1, +inf]`.
`A += S` followed by `A -= S` completes and leaves `Vx = [0, 2^1023]`, the 1
lost to rounding; `A = S` followed by `A -= S` completes and leaves
`Vy = [0, NaN]`, not zeros. -/
theorem C17_staggered_round_trip_fails :
    (∀ c, ((fpStore.vf 0).comp c).F.extent = ((fpStore.pvf 0).comp c).extent) ∧
    (fpStore.pvf 0).Vx.data = [Fp.finite 1, Fp.ofScaled 1 1023] ∧
    (fpStore.vf 0).Vx.F.data = [Fp.ofScaled 1 53, Fp.finite 1] ∧
    (fpStore.vf 0).Vy.F.data = [Fp.finite 1, Fp.inf false] ∧
    (∀ x ∈ (fpStore.pvf 0).Vx.data ++ (fpStore.vf 0).Vx.F.data, x.inFormat) ∧
    (∃ t1 t2, plainvf.opAddAssign_vfield 0 0 fpStore = .ok (0, t1) ∧
      plainvf.opSubAssign_vfield 0 0 t1 = .ok (0, t2) ∧
      (t2.pvf 0).Vx.data = [Fp.finite 0, Fp.ofScaled 1 1023]) ∧
    (∃ u1 u2, plainvf.opAssign_vfield 0 0 fpStore = .ok ((), u1) ∧
      plainvf.opSubAssign_vfield 0 0 u1 = .ok (0, u2) ∧
      (u2.pvf 0).Vy.data = [Fp.finite 0, Fp.nan]) := by
  refine ⟨by decide, by decide, by decide, by decide, by decide, ?_, ?_⟩
  · obtain ⟨t1, t2, h1, h2, post⟩ := plainvf.twice_vfield
      (fun v w : Fp binary64 => v + w) (fun v w => v - w) 0 0 fpStore (by decide)
    refine ⟨t1, t2, ?_, ?_, ?_⟩
    · rw [plainvf.opAddAssign_vfield_eq, h1]; rfl
    · rw [plainvf.opSubAssign_vfield_eq, h2]; rfl
    · exact (post.2.2.2.2 .Vx).2.2.trans (by decide)
  · obtain ⟨u1, u2, h1, h2, post⟩ := plainvf.twice_vfield
      (fun _ w : Fp binary64 => w) (fun v w => v - w) 0 0 fpStore (by decide)
    refine ⟨u1, u2, ?_, ?_, ?_⟩
    · rw [plainvf.opAssign_vfield_eq, h1]; rfl
    · rw [plainvf.opSubAssign_vfield_eq, h2]; rfl
    · exact (post.2.2.2.2 .Vy).2.2.trans (by decide)

/-- C17, amended: when the raw arrays of the staggered field `S` have the
shapes of the components of the plain field `A`, `A += S` followed by
`A -= S` completes, and so does `A = S` followed by `A -= S`; both leave `A`
with its grid reference, handles and layout.  At every valid index `i` of
every component `c`, ghost cells included, with `p` the old cell of `A` and
`q` the cell of `S.c.F` at the same storage position, the first leaves
`(p + q) - q` and the second `q - q`, the operations being those of the
scalar type, no law assumed of them.  `A` is exactly the field it was after
the first whenever `(p + q) - q = p` for all scalars, and the component
consists of copies of `z` after the second whenever `q - q = z` for all
scalars. -/
theorem C17_staggered_inverse [Add real] [Sub real] (s : Store real) (A S : Nat)
    (c : Component) (i : TinyVector) (z : real)
    (hshape : ∀ c, ((s.vf S).comp c).F.extent = ((s.pvf A).comp c).extent)
    (hi : ((s.pvf A).comp c).inRange i) :
    ∃ p q, ((s.pvf A).comp c).get? i = some p ∧
      ((s.vf S).comp c).F.data[((s.pvf A).comp c).offset i]? = some q ∧
      (∃ t1 t2, plainvf.opAddAssign_vfield A S s = .ok (A, t1) ∧
        plainvf.opSubAssign_vfield A S t1 = .ok (A, t2) ∧ Store.framed A s t2 ∧
        ((t2.pvf A).comp c).get? i = some ((p + q) - q) ∧
        ((∀ p q : real, (p + q) - q = p) → t2.pvf A = s.pvf A)) ∧
      (∃ u1 u2, plainvf.opAssign_vfield A S s = .ok ((), u1) ∧
        plainvf.opSubAssign_vfield A S u1 = .ok (A, u2) ∧ Store.framed A s u2 ∧
        ((u2.pvf A).comp c).get? i = some (q - q) ∧
        ((∀ q : real, q - q = z) →
          ((u2.pvf A).comp c).data = List.replicate ((s.pvf A).comp c).numElements z ∧
          ((u2.pvf A).comp c).get? i = some z)) := by
  have hlen : ∀ c, ((s.pvf A).comp c).data.length ≤ (((s.vf S).comp c).F).data.length := by
    intro c
    rw [BArray.size_eq, BArray.size_eq, hshape c]
  obtain ⟨t1, t2, h1, h2, post⟩ := plainvf.twice_vfield
    (fun v w : real => v + w) (fun v w => v - w) A S s hlen
  obtain ⟨u1, u2, g1, g2, qost⟩ := plainvf.twice_vfield
    (fun _ w : real => w) (fun v w => v - w) A S s hlen
  obtain ⟨p, q, hp, hq, hr⟩ := BArray.get?_zipWith_pos (post.2.2.2.2 c).1 (post.2.2.2.2 c).2.1
    (post.2.2.2.2 c).2.2 (hlen c) i hi
  obtain ⟨p2, q2, hp2, hq2, hr2⟩ := BArray.get?_zipWith_pos (qost.2.2.2.2 c).1
    (qost.2.2.2.2 c).2.1 (qost.2.2.2.2 c).2.2 (hlen c) i hi
  have eq : q2 = q := Option.some.inj (hq2.symm.trans hq)
  subst eq
  refine ⟨p, q2, hp, hq, ⟨t1, t2, ?_, ?_, Store.framed_of_fieldUpdated post, hr, ?_⟩,
    ⟨u1, u2, ?_, ?_, Store.framed_of_fieldUpdated qost, hr2, ?_⟩⟩
  · rw [plainvf.opAddAssign_vfield_eq, h1]; rfl
  · rw [plainvf.opSubAssign_vfield_eq, h2]; rfl
  · intro hlaw
    exact plainvf.eq_of_fieldUpdated_left post hlen hlaw
  · rw [plainvf.opAssign_vfield_eq, g1]; rfl
  · rw [plainvf.opSubAssign_vfield_eq, g2]; rfl
  · intro hlaw
    have hdata : ((u2.pvf A).comp c).data =
        List.replicate ((s.pvf A).comp c).numElements z := by
      rw [(qost.2.2.2.2 c).2.2]
      have e : (fun (p q : real) => (fun v w => v - w) ((fun _ w => w) p q) q) =
          fun _ _ => z := funext fun _ => funext fun q => hlaw q
      rw [e, zipWith_const_of_le z _ _ (hlen c), BArray.numElements,
        ← ((s.pvf A).comp c).size_eq]
    refine ⟨hdata, ?_⟩
    apply BArray.get?_of_replicate _ z _ hdata i
    exact (@BArray.inRange_congr _ ((u2.pvf A).comp c) ((s.pvf A).comp c)
      ⟨(qost.2.2.2.2 c).1, (qost.2.2.2.2 c).2.1⟩ i).2 hi

/-- C17, amended, on `fpStore`: for the plain and the staggered field at
address 0 and the ghost cell (-1,0,0) of `Vx`, where they hold 1 and `2^53`. -/
theorem C17_staggered_inverse_demo :
    (∀ c, ((fpStore.vf 0).comp c).F.extent = ((fpStore.pvf 0).comp c).extent) ∧
    ((fpStore.pvf 0).comp .Vx).inRange ⟨-1, 0, 0⟩ ∧
    ∃ p q, ((fpStore.pvf 0).comp .Vx).get? ⟨-1, 0, 0⟩ = some p ∧
      ((fpStore.vf 0).comp .Vx).F.data[((fpStore.pvf 0).comp .Vx).offset ⟨-1, 0, 0⟩]? = some q ∧
      (∃ t1 t2, plainvf.opAddAssign_vfield 0 0 fpStore = .ok (0, t1) ∧
        plainvf.opSubAssign_vfield 0 0 t1 = .ok (0, t2) ∧ Store.framed 0 fpStore t2 ∧
        ((t2.pvf 0).comp .Vx).get? ⟨-1, 0, 0⟩ = some ((p + q) - q) ∧
        ((∀ p q : Fp binary64, (p + q) - q = p) → t2.pvf 0 = fpStore.pvf 0)) ∧
      (∃ u1 u2, plainvf.opAssign_vfield 0 0 fpStore = .ok ((), u1) ∧
        plainvf.opSubAssign_vfield 0 0 u1 = .ok (0, u2) ∧ Store.framed 0 fpStore u2 ∧
        ((u2.pvf 0).comp .Vx).get? ⟨-1, 0, 0⟩ = some (q - q) ∧
        ((∀ q : Fp binary64, q - q = Fp.finite 0) →
          ((u2.pvf 0).comp .Vx).data =
            List.replicate ((fpStore.pvf 0).comp .Vx).numElements (Fp.finite 0) ∧
          ((u2.pvf 0).comp .Vx).get? ⟨-1, 0, 0⟩ = some (Fp.finite 0))) :=
  ⟨by decide, by decide,
    C17_staggered_inverse fpStore 0 0 .Vx ⟨-1, 0, 0⟩ (Fp.finite 0) (by decide) (by decide)⟩

end Loiret
